import Mathlib

/-!
Verification of the Bitcoin Core RPC capstone script (`src/rust/src/main.rs`).

The program is a linear script driving an external Bitcoin node over JSON-RPC.
We embed it shallowly:

* the external node is an abstract environment (`NodeEnv`) supplying, for each
  call site, either a typed response (after serde deserialization, whose
  failure is folded into the `Except` error) or an RPC error;
* execution is a writer/exception monad `M` that records a trace of events:
  the RPC calls issued (with a success flag) and the step banners the script
  prints (`=== Step n ... ===`);
* Rust `f64` amounts are modelled as exact rationals (`ℚ`); `format!("{:.7}", x)`
  is modelled by rounding half-up at the seventh decimal and printing exactly
  seven fractional digits, and `str::parse::<f64>` by an exact decimal parser
  (the exponent / `inf` / `NaN` forms of the grammar are never produced by the
  program and are omitted);
* Rust panics (`unwrap`, out-of-bounds indexing, `assert!`) are a distinct
  `Outcome.panic` result, separate from `Err` propagation;
* `serde_json::Value` is the inductive `Json`; the bracket indexing operator
  of `Value` (which yields `Null` on missing keys or non-objects) is `Json.get`.
-/

namespace Capstone

/-! ## JSON values (model of `serde_json::Value`) -/

/-- Model of `serde_json::Value`.  Numbers are exact rationals (`f64` modelled
exactly); objects are association lists. -/
inductive Json where
  | null
  | bool (b : Bool)
  | num (q : ℚ)
  | str (s : String)
  | arr (xs : List Json)
  | obj (fields : List (String × Json))

/-- Model of `value[key]` on `serde_json::Value`: returns the field of an
object, and `Null` when the key is missing or the value is not an object. -/
def Json.get (j : Json) (key : String) : Json :=
  match j with
  | .obj fields => (fields.lookup key).getD Json.null
  | _ => Json.null

/-- Model of `Value::as_array`. -/
def Json.as_array (j : Json) : Option (List Json) :=
  match j with
  | .arr xs => some xs
  | _ => none

/-- Model of `Value::as_str`. -/
def Json.as_str (j : Json) : Option String :=
  match j with
  | .str s => some s
  | _ => none

/-- Model of `Value::as_f64`: any JSON number is available as a float. -/
def Json.as_f64 (j : Json) : Option ℚ :=
  match j with
  | .num q => some q
  | _ => none

/-- Model of `Value::as_u64`: only a non-negative integral number qualifies. -/
def Json.as_u64 (j : Json) : Option ℕ :=
  match j with
  | .num q => if q.den = 1 ∧ 0 ≤ q.num then some q.num.toNat else none
  | _ => none

/-! ## Outcomes, events, and the trace monad -/

/-- RPC / IO errors are abstract messages. -/
abbrev Err := String

/-- Result of running a piece of the script: a value, an `Err` propagated with
`?`, or a process-aborting Rust panic. -/
inductive Outcome (α : Type) where
  | ok (a : α)
  | err (e : Err)
  | panic (msg : String)
deriving DecidableEq

def Outcome.isOk {α : Type} : Outcome α → Bool
  | .ok _ => true
  | _ => false

def Outcome.isErr {α : Type} : Outcome α → Bool
  | .err _ => true
  | _ => false

def Outcome.isPanic {α : Type} : Outcome α → Bool
  | .panic _ => true
  | _ => false

/-- The remote procedures the script invokes, with the arguments relevant to
the trace (wallet routing and marshaled values). -/
inductive Call where
  | getblockchaininfo
  | loadwallet (name : String)
  | createwallet (name : String)
  | getnewaddress (label : String) (wallet : String)
  | generatetoaddress (nblocks : ℕ) (address : String)
  | getbalance (wallet : String)
  | sendtoaddress (wallet : String) (address : String) (amount : ℚ)
  | getmempoolentry (txid : String)
  | getrawtransaction (txid : String)
  | getblock (hash : String)
deriving DecidableEq

/-- Trace events: an RPC call with its success flag, or one of the printed
step banners of `main`. -/
inductive Ev where
  | call (c : Call) (success : Bool)
  | step (n : ℕ)
deriving DecidableEq

/-- The script monad: a result together with the ordered trace of events. -/
abbrev M (α : Type) : Type := Outcome α × List Ev

def M.bind {α β : Type} (x : M α) (f : α → M β) : M β :=
  match x with
  | (Outcome.ok a, t) => ((f a).1, t ++ (f a).2)
  | (Outcome.err e, t) => (Outcome.err e, t)
  | (Outcome.panic m, t) => (Outcome.panic m, t)

instance : Monad M where
  pure a := (Outcome.ok a, [])
  bind := M.bind

/-- Lift a fallible non-RPC operation (client construction, `Amount::from_btc`,
`File::create`): no trace event. -/
def liftE {α : Type} (x : Except Err α) : M α :=
  match x with
  | .ok a => (Outcome.ok a, [])
  | .error e => (Outcome.err e, [])

/-- Issue one RPC call: the call is recorded in the trace with its success
flag, and an error aborts the computation (the `?` operator). -/
def rpcCall {α : Type} (c : Call) (x : Except Err α) : M α :=
  match x with
  | .ok a => (Outcome.ok a, [Ev.call c true])
  | .error e => (Outcome.err e, [Ev.call c false])

/-- Record a step banner. -/
def stepM (n : ℕ) : M Unit := (Outcome.ok (), [Ev.step n])

/-- Lift a pure outcome (used for the partial operations that can panic). -/
def ofOutcome {α : Type} (o : Outcome α) : M α := (o, [])

/-- An event is a failed RPC call. -/
def evFailed : Ev → Bool
  | .call _ success => !success
  | .step _ => false

/-- An event is a `loadwallet` or `createwallet` call (the two calls issued by
`create_or_load_wallet`). -/
def evIsWalletCall : Ev → Bool
  | .call (.loadwallet _) _ => true
  | .call (.createwallet _) _ => true
  | _ => false

/-- The step banners occurring in a trace, in order. -/
def stepsOf (t : List Ev) : List ℕ :=
  t.filterMap fun e =>
    match e with
    | .step n => some n
    | _ => none

/-! ## Decimal formatting and parsing (`format!("{:.7}", x)` / `str::parse::<f64>`)

`f64` values are carried as the exact rationals they denote.  Every `f64`
value the program manipulates is some binary64 value, and where the program
performs a lossy `f64` operation — serde's decoding of a JSON number into an
`f64`, `str::parse::<f64>`, and the two subtractions of the fee computation —
the binary64 rounding is applied explicitly (`roundF64` below).  `{:.7}`
rounds to seven decimal places (ties rounded half-up in this model; an exact
tie never arises from binary floats) and always prints exactly seven
fractional digits, with a minus sign for negative values. -/

/-- Little-endian base-10 digits, fuel-structured so the kernel can reduce it
(`Nat.digits` agrees with it; see `toDigitsLE_eq_digits`). -/
def toDigitsLE : ℕ → ℕ → List ℕ
  | 0, _ => []
  | _ + 1, 0 => []
  | fuel + 1, n + 1 => ((n + 1) % 10) :: toDigitsLE fuel ((n + 1) / 10)

/-- Decimal rendering of a natural number, most significant digit first. -/
def renderNat (n : ℕ) : List Char :=
  if n = 0 then [ '0' ] else (toDigitsLE n n).reverse.map Nat.digitChar

/-- Left-pad with `'0'` to seven characters (the fractional part of `{:.7}`). -/
def pad7 (l : List Char) : List Char :=
  List.replicate (7 - l.length) '0' ++ l

/-- `x` rounded at the seventh decimal, as an integer number of `10⁻⁷` units:
`⌊x·10⁷ + 1/2⌋`, written on `num`/`den` so that the kernel can evaluate it. -/
def scaled7 (q : ℚ) : ℤ :=
  (2 * 10000000 * q.num + (q.den : ℤ)) / (2 * (q.den : ℤ))

/-- The rational value actually printed by `format!("{:.7}", x)`. -/
def round7 (q : ℚ) : ℚ := (scaled7 q : ℚ) / 10000000

/-- Model of `format!("{:.7}", x)`: sign, integer part, `'.'`, exactly seven
fractional digits. -/
def fmt7 (q : ℚ) : String :=
  String.mk ((if scaled7 q < 0 then [ '-' ] else []) ++
    renderNat ((scaled7 q).natAbs / 10000000) ++
    '.' :: pad7 (renderNat ((scaled7 q).natAbs % 10000000)))

/-- A decimal digit, as in the float grammar. -/
def digit? (c : Char) : Option ℕ :=
  if '0' ≤ c ∧ c ≤ '9' then some (c.toNat - 48) else none

/-- Parse a digit string, most significant first: value and number of digits.
Fails on any non-digit. -/
def parseFrac : List Char → Option (ℕ × ℕ)
  | [] => some (0, 0)
  | c :: cs =>
    match digit? c, parseFrac cs with
    | some d, some (v, k) => some (d * 10 ^ k + v, k + 1)
    | _, _ => none

/-- Split a string into its leading run of digits and the rest. -/
def splitDigits : List Char → List Char × List Char
  | [] => ([], [])
  | c :: cs =>
    if (digit? c).isSome then (c :: (splitDigits cs).1, (splitDigits cs).2)
    else ([], c :: cs)

/-- Unsigned part of the `f64` grammar: `digits`, `digits.digits`, `digits.`
or `.digits` (at least one digit). -/
def parseUnsigned (l : List Char) : Option ℚ :=
  match splitDigits l with
  | (ds, []) =>
    if ds.isEmpty then none else (parseFrac ds).map fun p => (p.1 : ℚ)
  | (ds, c :: fs) =>
    if c = '.' then
      if ds.isEmpty && fs.isEmpty then none
      else
        match parseFrac ds, parseFrac fs with
        | some (iv, _), some (fv, k) => some ((iv : ℚ) + (fv : ℚ) / 10 ^ k)
        | _, _ => none
    else none

/-- Model of `str::parse::<f64>` on the decimal forms the program produces
(optional sign, digits, optional fraction; exponents, `inf` and `NaN` are
never produced by the program and are omitted). -/
def parseDecList (l : List Char) : Option ℚ :=
  match l with
  | [] => none
  | c :: rest =>
    if c = '-' then (parseUnsigned rest).map fun q => -q
    else if c = '+' then parseUnsigned rest
    else parseUnsigned l

def parseDec (s : String) : Option ℚ := parseDecList s.toList

/-- The numeric value a written field denotes: its parse, with the program's
`unwrap_or(0.0)` default. -/
def valOf (s : String) : ℚ := (parseDec s).getD 0

/-- Round a rational to an integer, ties to even (the IEEE-754 tie rule). -/
def roundHE (x : ℚ) : ℤ :=
  if Int.fract x = 1 / 2 then (if 2 ∣ ⌊x⌋ then ⌊x⌋ else ⌊x⌋ + 1) else round x

/-- Rounding of an exact value to the nearest IEEE-754 binary64 value, ties
to even: the significand is rounded to 53 bits at the value's binade.
Overflow to infinity and the subnormal range sit far outside every magnitude
this program's arithmetic reaches and are not modelled. -/
def roundF64 (q : ℚ) : ℚ :=
  if q = 0 then 0
  else (roundHE (q / 2 ^ (Int.log 2 |q| - 52)) : ℚ) * 2 ^ (Int.log 2 |q| - 52)

/-- `f64` subtraction: the exact difference of the (already representable)
operands, rounded back to binary64. -/
def f64Sub (a b : ℚ) : ℚ := roundF64 (a - b)

/-! ## The RPC wrapper functions (lines 18–102 of `main.rs`)

These are modelled at the JSON level over an abstract `call` function, exactly
as they forward to `Client::call`; serde result decoding is part of the
library plumbing (`rpc.call::<T>`). -/

/-- An abstract RPC client: `Client::call` as a function from method name and
marshaled arguments to the node's response. -/
def RpcClient := String → List Json → Except Err Json

/-- serde decoding of `Vec<String>`. -/
def asStringList : List Json → Option (List String)
  | [] => some []
  | x :: xs =>
    match x.as_str, asStringList xs with
    | some s, some l => some (s :: l)
    | _, _ => none

/-- serde decoding of a `Vec<String>` RPC result. -/
def decodeStringList (j : Json) : Except Err (List String) :=
  match j.as_array with
  | some xs =>
    match asStringList xs with
    | some l => Except.ok l
    | none => Except.error ("invalid response")
  | none => Except.error ("invalid response")

/-- The marshaled arguments of the `send` wrapper: `[{addr: 100}]` and four
nulls (lines 19–25). -/
def sendArgs (addr : String) : List Json :=
  [Json.arr [Json.obj [(addr, Json.num 100)]], Json.null, Json.null, Json.null, Json.null]

/-- serde decoding of the `SendResult { complete, txid }` struct. -/
def decodeSendResult (j : Json) : Except Err (Bool × String) :=
  match j.get ("complete"), j.get ("txid") with
  | Json.bool b, Json.str t => Except.ok (b, t)
  | _, _ => Except.error ("invalid response")

/-- `send` (lines 18–35): forwards to the `send` RPC, deserializes
`SendResult`, `assert!`s the `complete` flag (a panic when false) and returns
only the `txid` field. -/
def send (rpc : RpcClient) (addr : String) : Outcome String :=
  match rpc ("send") (sendArgs addr) with
  | .error e => Outcome.err e
  | .ok v =>
    match decodeSendResult v with
    | .error e => Outcome.err e
    | .ok (complete, txid) =>
      if complete then Outcome.ok txid
      else Outcome.panic ("assertion failed: send_result.complete")

/-- `mine_blocks_to_address` (lines 81–84): forwards to `generatetoaddress`. -/
def mine_blocks_to_address (rpc : RpcClient) (address : String) (num_blocks : ℕ) :
    Except Err (List String) :=
  (rpc ("generatetoaddress") [Json.num (num_blocks : ℚ), Json.str address]).bind decodeStringList

/-- `get_transaction_details` (lines 87–90): forwards to `getrawtransaction`
with `verbose = true`. -/
def get_transaction_details (rpc : RpcClient) (txid : String) : Except Err Json :=
  rpc ("getrawtransaction") [Json.str txid, Json.bool true]

/-- `get_block_details` (lines 93–96): forwards to `getblock`. -/
def get_block_details (rpc : RpcClient) (block_hash : String) : Except Err Json :=
  rpc ("getblock") [Json.str block_hash]

/-- `get_mempool_entry` (lines 99–102): forwards to `getmempoolentry`. -/
def get_mempool_entry (rpc : RpcClient) (txid : String) : Except Err Json :=
  rpc ("getmempoolentry") [Json.str txid]

/-! ## The node environment and `main` -/

/-- Node responses for the (up to) three wallet calls `create_or_load_wallet`
can issue for one wallet name: the first `loadwallet`, the `createwallet`, and
the retried `loadwallet`.  Distinct fields model that the node's state may
change between the attempts. -/
structure WalletEnv where
  load1 : Except Err Unit
  create : Except Err Unit
  load2 : Except Err Unit

/-- The strings a deserialized `bitcoin::Address` can render to: non-empty
and drawn from the base58/bech32 alphabets, which are alphanumeric — in
particular such a rendering never is empty and never contains `'"'` or a
newline.  A node response outside this set fails serde's decoding into the
`Address` type and becomes an `Except.error`, never an `ok`. -/
def validAddressB (s : String) : Bool :=
  !s.isEmpty && s.toList.all fun c => c.isAlphanum

/-- A deserialized `bitcoin::Address` value as `get_new_address` returns it
(lines 125 and 150): its rendering, together with the validity that
deserialization into the `Address` type guarantees. -/
structure Address where
  render : String
  valid : validAddressB render = true

/-- One response per fallible operation of a run of `main`, in program order.
RPC responses are post-deserialization (a serde failure is an `Except.error`,
and the two `get_new_address` responses carry validated `Address` values);
`clientNew`, `minerClient` and `traderClient` model the three `Client::new`
constructions, `fileCreate` models `File::create`. -/
structure NodeEnv where
  clientNew : Except Err Unit
  blockchainInfo : Except Err Json
  minerWallet : WalletEnv
  traderWallet : WalletEnv
  minerClient : Except Err Unit
  miningAddress : Except Err Address
  mine101 : Except Err (List String)
  minerBalance : Except Err ℚ
  traderClient : Except Err Unit
  traderAddress : Except Err Address
  sendResult : Except Err String
  mempoolEntry : Except Err Json
  mine1 : Except Err (List String)
  txDetails : Except Err Json
  blockDetails : Except Err Json
  fileCreate : Except Err Unit

/-- `create_or_load_wallet` (lines 38–69): try `loadwallet`; on failure try
`createwallet`; on failure retry `loadwallet`; if that also fails return the
original creation error. -/
def create_or_load_wallet (w : WalletEnv) (name : String) : M Unit :=
  match w.load1 with
  | .ok _ => (Outcome.ok (), [Ev.call (Call.loadwallet name) true])
  | .error _ =>
    match w.create with
    | .ok _ =>
      (Outcome.ok (), [Ev.call (Call.loadwallet name) false,
        Ev.call (Call.createwallet name) true])
    | .error e =>
      match w.load2 with
      | .ok _ =>
        (Outcome.ok (), [Ev.call (Call.loadwallet name) false,
          Ev.call (Call.createwallet name) false,
          Ev.call (Call.loadwallet name) true])
      | .error _ =>
        (Outcome.err e, [Ev.call (Call.loadwallet name) false,
          Ev.call (Call.createwallet name) false,
          Ev.call (Call.loadwallet name) false])

/-- `Amount::from_btc` (line 155): fails outside the representable range. -/
def amount_from_btc (btc : ℚ) : Except Err ℚ :=
  if 0 ≤ btc ∧ btc ≤ 21000000 then Except.ok btc else Except.error ("amount out of range")

/-- The `Debug` rendering of a node-returned address value (a quoted string),
as produced by `format!("{:?}", addr)`. -/
def debug_quote (s : String) : String := "\"" ++ s ++ "\""

/-- `str::trim_matches('"')`: strip all leading and trailing quote characters. -/
def trimMatchesQuote (s : String) : String :=
  String.mk (((s.toList.dropWhile fun c => c = '"').reverse.dropWhile fun c => c = '"').reverse)

/-- `format!("{:?}", address).trim_matches('"')` (lines 134 and 158). -/
def addr_str (a : String) : String := trimMatchesQuote (debug_quote a)

/-- `tx_details["vout"].as_array().unwrap()` (line 205): panics when the field
is not an array. -/
def unwrapArr (j : Json) : Outcome (List Json) :=
  match j.as_array with
  | some xs => Outcome.ok xs
  | none => Outcome.panic ("called Option::unwrap on a None value")

/-- `&v[0]` on a `Vec` (lines 189, 213): panics when the vector is empty. -/
def headPanic {α : Type} (l : List α) : Outcome α :=
  match l with
  | [] => Outcome.panic ("index out of bounds")
  | a :: _ => Outcome.ok a

/-- The change-output scan of `main` (lines 211–223): for each output with an
`addresses` array, index element 0 (a panic when the array is empty); if it is
a string different from the trader's address, record it with its formatted
`value` (default 0.0) and stop.  `as_f64` on a `serde_json` number yields the
`f64` the node's decimal was decoded to, hence the `roundF64`. -/
def find_change (trader : String) : List Json → Outcome (String × String)
  | [] => Outcome.ok ("", "")
  | output :: rest =>
    match ((output.get ("scriptPubKey")).get ("addresses")).as_array with
    | none => find_change trader rest
    | some addresses =>
      match addresses with
      | [] => Outcome.panic ("index out of bounds")
      | a0 :: _ =>
        match a0.as_str with
        | none => find_change trader rest
        | some address =>
          let amount := roundF64 (((output.get ("value")).as_f64).getD 0)
          if address ≠ trader then Outcome.ok (address, fmt7 amount)
          else find_change trader rest

/-- The ten fields written to `../out.txt` in Step 9, in writing order. -/
structure Output where
  txid : String
  minerInputAddress : String
  minerInputAmount : String
  traderOutputAddress : String
  traderOutputAmount : String
  minerChangeAddress : String
  minerChangeAmount : String
  transactionFees : String
  blockHeight : String
  blockHash : String
deriving DecidableEq

/-- The ten lines, in the order of the ten `writeln!` calls (lines 239–248). -/
def Output.toLines (o : Output) : List String :=
  [o.txid, o.minerInputAddress, o.minerInputAmount, o.traderOutputAddress,
   o.traderOutputAmount, o.minerChangeAddress, o.minerChangeAmount,
   o.transactionFees, o.blockHeight, o.blockHash]

/-- The file content produced by the ten `writeln!` calls: each field followed
by a newline. -/
def fileContent (o : Output) : List Char :=
  (o.toLines.map fun l => l.toList ++ [ '\n' ]).flatten

/-- Split a character list at newlines (the lines of the file). -/
def splitNl : List Char → List (List Char)
  | [] => [[]]
  | c :: cs =>
    if c = '\n' then [] :: splitNl cs
    else (c :: (splitNl cs).headD []) :: (splitNl cs).tail

/-- `main` (lines 104–263): the whole run against a node environment,
returning the output-file fields and the trace of RPC calls and step banners.
The two `println!`-only operations without effects on control flow are not
modelled; `serde_json::to_string_pretty` on a `Value` (line 184) cannot fail
and is omitted.  The fee computation (lines 226–230) is `f64` arithmetic:
`miner_change_amount.parse::<f64>().unwrap_or(0.0)` is the nearest binary64
to the parsed decimal (`roundF64`, with `roundF64 0 = 0` absorbing the
default), and each of the two subtractions rounds its exact result back to
binary64 (`f64Sub`). -/
def main (env : NodeEnv) : M Output :=
  liftE env.clientNew >>= fun _ =>
  rpcCall Call.getblockchaininfo env.blockchainInfo >>= fun _ =>
  stepM 1 >>= fun _ =>
  create_or_load_wallet env.minerWallet ("Miner") >>= fun _ =>
  create_or_load_wallet env.traderWallet ("Trader") >>= fun _ =>
  stepM 2 >>= fun _ =>
  liftE env.minerClient >>= fun _ =>
  rpcCall (Call.getnewaddress ("Mining Reward") ("Miner")) env.miningAddress >>= fun mining_address =>
  stepM 3 >>= fun _ =>
  let mining_address_str := addr_str mining_address.render
  rpcCall (Call.generatetoaddress 101 mining_address_str) env.mine101 >>= fun _ =>
  rpcCall (Call.getbalance ("Miner")) env.minerBalance >>= fun _ =>
  stepM 4 >>= fun _ =>
  liftE env.traderClient >>= fun _ =>
  rpcCall (Call.getnewaddress ("Received") ("Trader")) env.traderAddress >>= fun trader_address =>
  stepM 5 >>= fun _ =>
  liftE (amount_from_btc 20) >>= fun send_amount =>
  let trader_address_str := addr_str trader_address.render
  rpcCall (Call.sendtoaddress ("Miner") trader_address_str send_amount) env.sendResult >>= fun txid =>
  stepM 6 >>= fun _ =>
  rpcCall (Call.getmempoolentry txid) env.mempoolEntry >>= fun _ =>
  stepM 7 >>= fun _ =>
  rpcCall (Call.generatetoaddress 1 mining_address_str) env.mine1 >>= fun block_hashes =>
  ofOutcome (headPanic block_hashes) >>= fun confirmation_block_hash =>
  stepM 8 >>= fun _ =>
  rpcCall (Call.getrawtransaction txid) env.txDetails >>= fun tx_details =>
  rpcCall (Call.getblock confirmation_block_hash) env.blockDetails >>= fun block_details =>
  ofOutcome (unwrapArr (tx_details.get ("vout"))) >>= fun vout =>
  ofOutcome (find_change trader_address_str vout) >>= fun chg =>
  stepM 9 >>= fun _ =>
  liftE env.fileCreate >>= fun _ =>
  pure { txid := txid
         minerInputAddress := mining_address_str
         minerInputAmount := "50"
         traderOutputAddress := trader_address_str
         traderOutputAmount := "20"
         minerChangeAddress := chg.1
         minerChangeAmount := chg.2
         transactionFees := fmt7 (f64Sub (f64Sub 50 20) (roundF64 (valOf chg.2)))
         blockHeight := Nat.repr (((block_details.get ("height")).as_u64).getD 0)
         blockHash := confirmation_block_hash }

/-! ## Helper definitions for the verification -/

/-- Value of a most-significant-first digit list. -/
def valMSB : List ℕ → ℕ
  | [] => 0
  | d :: ds => d * 10 ^ ds.length + valMSB ds

/-- An output of `vout` that cannot make the `addresses[0]` indexing panic:
either it has no `addresses` array, or that array is non-empty. -/
def outputAddrOkB (o : Json) : Bool :=
  match ((o.get ("scriptPubKey")).get ("addresses")).as_array with
  | some [] => false
  | _ => true

/-- The precondition under which the three partial operations of `main`
cannot panic: a successful `generatetoaddress` (step 7) returns at least one
hash, and a successful `getrawtransaction` response has a `vout` array all of
whose outputs are `outputAddrOkB`. -/
def PrePanicB (env : NodeEnv) : Bool :=
  (match env.mine1 with
   | .ok l => !l.isEmpty
   | .error _ => true) &&
  (match env.txDetails with
   | .ok j =>
     match (j.get ("vout")).as_array with
     | some vs => vs.all outputAddrOkB
     | none => false
   | .error _ => true)

/-- A `vout` output in which the change scan finds nothing and does not
panic: no `addresses` array, or a non-empty one whose first element is not a
string, or whose first element is the trader's address. -/
def noChangeOutputB (trader : String) (o : Json) : Bool :=
  match ((o.get ("scriptPubKey")).get ("addresses")).as_array with
  | none => true
  | some [] => false
  | some (a0 :: _) =>
    match a0.as_str with
    | none => true
    | some address => address == trader

/-- A computation never ends in a Rust panic. -/
def NoPanic {α : Type} (m : M α) : Prop := m.1.isPanic = false

/-- Failed RPC calls in the trace are either wallet load/create calls (the
`create_or_load_wallet` fallback) or the final event of an aborted run. -/
def TraceOkP {α : Type} (m : M α) : Prop :=
  ∀ ev ∈ m.2, evFailed ev = true →
    evIsWalletCall ev = true ∨ (m.2.getLast? = some ev ∧ m.1.isErr = true)

/-- A `vout` output paying the trader: `addresses = [trader]`. -/
def traderVout (trader : String) (value : ℚ) : Json :=
  Json.obj [("scriptPubKey", Json.obj [("addresses", Json.arr [Json.str trader])]),
    ("value", Json.num value)]

/-- A node environment in which every call succeeds and the transaction has
an empty `vout` (so no change output is found). -/
def envOk : NodeEnv :=
  { clientNew := Except.ok ()
    blockchainInfo := Except.ok Json.null
    minerWallet := ⟨Except.ok (), Except.ok (), Except.ok ()⟩
    traderWallet := ⟨Except.ok (), Except.ok (), Except.ok ()⟩
    minerClient := Except.ok ()
    miningAddress := Except.ok ⟨("maddr"), by decide⟩
    mine101 := Except.ok ["h"]
    minerBalance := Except.ok 50
    traderClient := Except.ok ()
    traderAddress := Except.ok ⟨("taddr"), by decide⟩
    sendResult := Except.ok ("txid0")
    mempoolEntry := Except.ok Json.null
    mine1 := Except.ok ["blockhash0"]
    txDetails := Except.ok (Json.obj [("vout", Json.arr [])])
    blockDetails := Except.ok (Json.obj [("height", Json.num 103)])
    fileCreate := Except.ok () }

/-- The output-file fields of the `envOk` run. -/
def outOk : Output :=
  { txid := "txid0"
    minerInputAddress := "maddr"
    minerInputAmount := "50"
    traderOutputAddress := "taddr"
    traderOutputAmount := "20"
    minerChangeAddress := ""
    minerChangeAmount := ""
    transactionFees := "30.0000000"
    blockHeight := "103"
    blockHash := "blockhash0" }

/-- The trace of the `envOk` run. -/
def trOk : List Ev :=
  [Ev.call Call.getblockchaininfo true,
   Ev.step 1,
   Ev.call (Call.loadwallet ("Miner")) true,
   Ev.call (Call.loadwallet ("Trader")) true,
   Ev.step 2,
   Ev.call (Call.getnewaddress ("Mining Reward") ("Miner")) true,
   Ev.step 3,
   Ev.call (Call.generatetoaddress 101 ("maddr")) true,
   Ev.call (Call.getbalance ("Miner")) true,
   Ev.step 4,
   Ev.call (Call.getnewaddress ("Received") ("Trader")) true,
   Ev.step 5,
   Ev.call (Call.sendtoaddress ("Miner") ("taddr") 20) true,
   Ev.step 6,
   Ev.call (Call.getmempoolentry ("txid0")) true,
   Ev.step 7,
   Ev.call (Call.generatetoaddress 1 ("maddr")) true,
   Ev.step 8,
   Ev.call (Call.getrawtransaction ("txid0")) true,
   Ev.call (Call.getblock ("blockhash0")) true,
   Ev.step 9]

/-- As `envOk`, but the transaction has a trader output of 20 and a change
output of 29 to a distinct address. -/
def envChange : NodeEnv :=
  { envOk with
    txDetails := Except.ok (Json.obj [("vout",
      Json.arr [traderVout ("taddr") 20, traderVout ("chaddr") 29])]) }

/-- As `envOk`, but the node's `sendtoaddress` response carries a `txid`
string containing a newline.  `SendToAddressResult` (lines 172–175) declares
`txid` as a plain `String`, so serde accepts any JSON string here — unlike
the two addresses, this field is unvalidated. -/
def envNlTxid : NodeEnv :=
  { envOk with sendResult := Except.ok ("tx\nid") }

/-- As `envOk`, but the transaction has a trader output of 20 and a change
output of 2⁶⁰ to a distinct address.  2⁶⁰ is exactly representable in
binary64, but at that magnitude the spacing between binary64 values is 2⁷,
so the fee subtraction `30.0 - 2⁶⁰` rounds to `-2⁶⁰`. -/
def envBigChange : NodeEnv :=
  { envOk with
    txDetails := Except.ok (Json.obj [("vout",
      Json.arr [traderVout ("taddr") 20, traderVout ("chaddr") 1152921504606846976])]) }

/-- As `envOk`, but the first `loadwallet` for the Miner wallet fails (the
wallet does not exist yet) and the `createwallet` succeeds. -/
def envLoadFail : NodeEnv :=
  { envOk with minerWallet := ⟨Except.error ("wallet not found"), Except.ok (), Except.ok ()⟩ }

/-- A `vout` list with a single output whose `addresses` array is empty. -/
def voutEmptyAddrs : List Json :=
  [Json.obj [("scriptPubKey", Json.obj [("addresses", Json.arr [])])]]

/-- As `envOk`, but the transaction has one output whose `addresses` array is
empty. -/
def envEmptyAddrs : NodeEnv :=
  { envOk with txDetails := Except.ok (Json.obj [("vout", Json.arr voutEmptyAddrs)]) }

/-- As `envOk`, but the `getrawtransaction` response has no `vout` field. -/
def envNoVout : NodeEnv :=
  { envOk with txDetails := Except.ok (Json.obj []) }

/-- As `envOk`, but `generatetoaddress` in step 7 returns no block hashes. -/
def envNoHash : NodeEnv :=
  { envOk with mine1 := Except.ok [] }

/-- The output-file fields of the `envChange` run. -/
def outChange : Output :=
  { outOk with
    minerChangeAddress := "chaddr"
    minerChangeAmount := "29.0000000"
    transactionFees := "1.0000000" }

/-- The output-file fields of the `envNlTxid` run. -/
def outNlTxid : Output :=
  { outOk with txid := "tx\nid" }

/-- The output-file fields of the `envBigChange` run: the change line reads
back as 2⁶⁰, but the fee line is the binary64 result `-2⁶⁰`, not the exact
`30 - 2⁶⁰`. -/
def outBigChange : Output :=
  { outOk with
    minerChangeAddress := "chaddr"
    minerChangeAmount := "1152921504606846976.0000000"
    transactionFees := "-1152921504606846976.0000000" }

/-- The trace of the `envLoadFail` run: the failed Miner `loadwallet` is
followed by a successful `createwallet` and the run continues. -/
def trLoadFail : List Ev :=
  [Ev.call Call.getblockchaininfo true,
   Ev.step 1,
   Ev.call (Call.loadwallet ("Miner")) false,
   Ev.call (Call.createwallet ("Miner")) true,
   Ev.call (Call.loadwallet ("Trader")) true,
   Ev.step 2,
   Ev.call (Call.getnewaddress ("Mining Reward") ("Miner")) true,
   Ev.step 3,
   Ev.call (Call.generatetoaddress 101 ("maddr")) true,
   Ev.call (Call.getbalance ("Miner")) true,
   Ev.step 4,
   Ev.call (Call.getnewaddress ("Received") ("Trader")) true,
   Ev.step 5,
   Ev.call (Call.sendtoaddress ("Miner") ("taddr") 20) true,
   Ev.step 6,
   Ev.call (Call.getmempoolentry ("txid0")) true,
   Ev.step 7,
   Ev.call (Call.generatetoaddress 1 ("maddr")) true,
   Ev.step 8,
   Ev.call (Call.getrawtransaction ("txid0")) true,
   Ev.call (Call.getblock ("blockhash0")) true,
   Ev.step 9]

/-- An RPC client whose `send` procedure reports `complete: false`. -/
def rpcStub : RpcClient :=
  fun _ _ => Except.ok (Json.obj [("complete", Json.bool false), ("txid", Json.str ("t"))])

/-- An RPC client whose `send` procedure reports `complete: true`. -/
def rpcStubOk : RpcClient :=
  fun _ _ => Except.ok (Json.obj [("complete", Json.bool true), ("txid", Json.str ("abc"))])

/-- A fallible operation succeeded. -/
def exOk {α : Type} : Except Err α → Bool
  | .ok _ => true
  | .error _ => false

/-- Every node response and local fallible operation of a run succeeds. -/
def EnvResponsesOk (env : NodeEnv) : Prop :=
  exOk env.clientNew = true ∧ exOk env.blockchainInfo = true ∧
  (create_or_load_wallet env.minerWallet ("Miner")).1.isOk = true ∧
  (create_or_load_wallet env.traderWallet ("Trader")).1.isOk = true ∧
  exOk env.minerClient = true ∧ exOk env.miningAddress = true ∧
  exOk env.mine101 = true ∧ exOk env.minerBalance = true ∧
  exOk env.traderClient = true ∧ exOk env.traderAddress = true ∧
  exOk env.sendResult = true ∧ exOk env.mempoolEntry = true ∧
  exOk env.mine1 = true ∧ exOk env.txDetails = true ∧
  exOk env.blockDetails = true ∧ exOk env.fileCreate = true

/-! ## Basic properties of the trace monad -/

theorem M.bind_eq {α β : Type} (x : M α) (f : α → M β) : x >>= f = M.bind x f := rfl

@[simp] theorem M.bind_ok {α β : Type} (a : α) (t : List Ev) (f : α → M β) :
    M.bind (Outcome.ok a, t) f = ((f a).1, t ++ (f a).2) := rfl

@[simp] theorem M.bind_err {α β : Type} (e : Err) (t : List Ev) (f : α → M β) :
    M.bind (Outcome.err e, t) f = (Outcome.err e, t) := rfl

@[simp] theorem M.bind_panic {α β : Type} (s : String) (t : List Ev) (f : α → M β) :
    M.bind (Outcome.panic s, t) f = (Outcome.panic s, t) := rfl

@[simp] theorem liftE_ok {α : Type} (a : α) :
    liftE (Except.ok a : Except Err α) = (Outcome.ok a, []) := rfl

@[simp] theorem liftE_error {α : Type} (e : Err) :
    liftE (Except.error e : Except Err α) = (Outcome.err e, []) := rfl

@[simp] theorem rpcCall_ok {α : Type} (c : Call) (a : α) :
    rpcCall c (Except.ok a) = (Outcome.ok a, [Ev.call c true]) := rfl

@[simp] theorem rpcCall_error {α : Type} (c : Call) (e : Err) :
    rpcCall c (Except.error e : Except Err α) = (Outcome.err e, [Ev.call c false]) := rfl

theorem M.okBind {α β : Type} {x : M α} {f : α → M β} {b : β} {t : List Ev}
    (h : (x >>= f) = (Outcome.ok b, t)) :
    ∃ a t1 t2, x = (Outcome.ok a, t1) ∧ f a = (Outcome.ok b, t2) ∧ t = t1 ++ t2 := by
  rw [M.bind_eq] at h
  obtain ⟨r, t1⟩ := x
  cases r with
  | ok a =>
    rw [M.bind_ok, Prod.mk.injEq] at h
    exact ⟨a, t1, (f a).2, rfl, Prod.ext h.1 rfl, h.2.symm⟩
  | err e =>
    rw [M.bind_err, Prod.mk.injEq] at h
    exact absurd h.1 (by simp)
  | panic s =>
    rw [M.bind_panic, Prod.mk.injEq] at h
    exact absurd h.1 (by simp)

/-! ## Correctness of the decimal printer and parser -/

theorem toDigitsLE_eq_digits : ∀ (fuel n : ℕ), n ≤ fuel → toDigitsLE fuel n = Nat.digits 10 n := by
  intro fuel
  induction fuel with
  | zero =>
    intro n hn
    obtain rfl : n = 0 := Nat.le_zero.mp hn
    simp [toDigitsLE]
  | succ fuel ih =>
    intro n hn
    match n with
    | 0 => simp [toDigitsLE]
    | m + 1 =>
      simp only [toDigitsLE]
      rw [Nat.digits_def' (by norm_num : (1:ℕ) < 10) (Nat.succ_pos m),
        ih _ (Nat.lt_succ_iff.mp (lt_of_lt_of_le (Nat.div_lt_self (Nat.succ_pos m) (by norm_num)) hn))]

theorem digit?_digitChar {d : ℕ} (h : d < 10) : digit? (Nat.digitChar d) = some d := by
  interval_cases d <;> decide

theorem parseFrac_map_digitChar : ∀ (ds : List ℕ), (∀ d ∈ ds, d < 10) →
    parseFrac (ds.map Nat.digitChar) = some (valMSB ds, ds.length) := by
  intro ds
  induction ds with
  | nil => intro _; rfl
  | cons d ds ih =>
    intro h
    simp only [List.map_cons, parseFrac, digit?_digitChar (h d (List.mem_cons_self d ds)),
      ih fun x hx => h x (List.mem_cons_of_mem d hx)]
    simp [valMSB]

theorem valMSB_append (xs ys : List ℕ) :
    valMSB (xs ++ ys) = valMSB xs * 10 ^ ys.length + valMSB ys := by
  induction xs with
  | nil => simp [valMSB]
  | cons d xs ih =>
    simp [valMSB, ih, List.length_append, pow_add]
    ring

theorem valMSB_reverse_eq_ofDigits : ∀ (l : List ℕ), valMSB l.reverse = Nat.ofDigits 10 l := by
  intro l
  induction l with
  | nil => rfl
  | cons d l ih =>
    rw [List.reverse_cons, valMSB_append, ih]
    simp [valMSB, Nat.ofDigits_cons]
    ring

theorem parseFrac_renderNat (n : ℕ) :
    parseFrac (renderNat n) = some (n, (renderNat n).length) := by
  by_cases h : n = 0
  · subst h; rfl
  · simp only [renderNat, if_neg h, toDigitsLE_eq_digits n n le_rfl]
    rw [parseFrac_map_digitChar _ fun d hd => Nat.digits_lt_base (by norm_num) (List.mem_reverse.mp hd)]
    rw [valMSB_reverse_eq_ofDigits, Nat.ofDigits_digits]
    simp [List.length_map]

theorem renderNat_digits (n : ℕ) : ∀ c ∈ renderNat n, (digit? c).isSome = true := by
  intro c hc
  by_cases h : n = 0
  · subst h
    have h0 : renderNat 0 = [ '0' ] := rfl
    rw [h0, List.mem_singleton] at hc
    subst hc; decide
  · simp only [renderNat, if_neg h] at hc
    obtain ⟨d, hd, rfl⟩ := List.mem_map.mp hc
    have hd10 : d < 10 :=
      Nat.digits_lt_base (by norm_num) (List.mem_reverse.mp ((toDigitsLE_eq_digits n n le_rfl) ▸ hd))
    rw [digit?_digitChar hd10]; rfl

theorem renderNat_ne_nil (n : ℕ) : renderNat n ≠ [] := by
  by_cases h : n = 0
  · subst h; decide
  · simp only [renderNat, if_neg h, toDigitsLE_eq_digits n n le_rfl]
    simp [Nat.digits_ne_nil_iff_ne_zero.mpr h]

theorem renderNat_length_le {b : ℕ} (hb : b < 10000000) : (renderNat b).length ≤ 7 := by
  by_cases h : b = 0
  · subst h; decide
  · simp only [renderNat, if_neg h, toDigitsLE_eq_digits b b le_rfl,
      List.length_map, List.length_reverse]
    rw [Nat.digits_len 10 b (by norm_num) h]
    have := Nat.log_lt_of_lt_pow h (show b < 10 ^ 7 by norm_num; exact hb)
    omega

theorem splitDigits_append (l : List Char) (ds : List Char)
    (hds : ∀ c ∈ ds, (digit? c).isSome = true)
    (c0 : Char) (hc0 : digit? c0 = none) :
    splitDigits (ds ++ c0 :: l) = (ds, c0 :: l) := by
  induction ds with
  | nil => simp [splitDigits, hc0]
  | cons c ds ih =>
    simp [splitDigits, hds c (List.mem_cons_self c ds),
      ih fun x hx => hds x (List.mem_cons_of_mem c hx)]

theorem parseFrac_replicate_zero_append (k : ℕ) (l : List Char) :
    parseFrac (List.replicate k '0' ++ l) = (parseFrac l).map fun p => (p.1, p.2 + k) := by
  induction k with
  | zero => simp
  | succ k ih =>
    have h0 : digit? '0' = some 0 := by decide
    rw [List.replicate_succ, List.cons_append]
    simp only [parseFrac, h0, ih]
    cases parseFrac l with
    | none => rfl
    | some p =>
      simp only [Option.map_some']
      have hp : (0 : ℕ) * 10 ^ (p.2 + k) + p.1 = p.1 := by omega
      rw [hp]
      have hk : p.2 + k + 1 = p.2 + (k + 1) := by omega
      rw [hk]

theorem parseFrac_pad7_renderNat {b : ℕ} (hb : b < 10000000) :
    parseFrac (pad7 (renderNat b)) = some (b, 7) := by
  rw [pad7, parseFrac_replicate_zero_append, parseFrac_renderNat]
  have := renderNat_length_le hb
  simp
  omega

theorem parseUnsigned_format (A B : ℕ) (hB : B < 10000000) :
    parseUnsigned (renderNat A ++ '.' :: pad7 (renderNat B)) =
      some ((A : ℚ) + (B : ℚ) / 10 ^ 7) := by
  have hsplit : splitDigits (renderNat A ++ '.' :: pad7 (renderNat B)) =
      (renderNat A, '.' :: pad7 (renderNat B)) :=
    splitDigits_append _ _ (renderNat_digits A) '.' (by decide)
  have hne : (renderNat A).isEmpty = false := by
    cases hA : renderNat A with
    | nil => exact absurd hA (renderNat_ne_nil A)
    | cons c cs => rfl
  have hds := parseFrac_renderNat A
  have hfs := parseFrac_pad7_renderNat hB
  simp only [parseUnsigned, hsplit]
  simp [hne, hds, hfs]

theorem parseDecList_digits_start (c : Char) (cs : List Char)
    (hc : (digit? c).isSome = true) :
    parseDecList (c :: cs) = parseUnsigned (c :: cs) := by
  have h1 : ¬(c = '-') := by intro h; subst h; exact absurd hc (by decide)
  have h2 : ¬(c = '+') := by intro h; subst h; exact absurd hc (by decide)
  simp [parseDecList, h1, h2]

theorem natCast_div_add_mod_div (m : ℕ) :
    ((m / 10000000 : ℕ) : ℚ) + ((m % 10000000 : ℕ) : ℚ) / 10 ^ 7 = (m : ℚ) / 10000000 := by
  rw [eq_div_iff (by norm_num : (10000000:ℚ) ≠ 0)]
  have h : (10:ℚ) ^ 7 = 10000000 := by norm_num
  rw [h, add_mul, div_mul_cancel₀ _ (by norm_num : (10000000:ℚ) ≠ 0)]
  have hnat : m / 10000000 * 10000000 + m % 10000000 = m := by omega
  exact_mod_cast hnat

theorem parseDec_fmt7 (q : ℚ) : parseDec (fmt7 q) = some (round7 q) := by
  have hB : (scaled7 q).natAbs % 10000000 < 10000000 := Nat.mod_lt _ (by norm_num)
  have hA := parseUnsigned_format ((scaled7 q).natAbs / 10000000) ((scaled7 q).natAbs % 10000000) hB
  rw [natCast_div_add_mod_div] at hA
  have htl : ∀ l : List Char, (String.mk l).toList = l := fun l => rfl
  rw [parseDec, fmt7, round7]
  by_cases hneg : scaled7 q < 0
  · rw [if_pos hneg, htl, List.singleton_append, List.cons_append]
    have hstep : ∀ l : List Char, parseDecList ('-' :: l) = (parseUnsigned l).map fun x => -x :=
      fun l => by simp only [parseDecList, if_true]
    rw [hstep, hA]
    have h1 : ((scaled7 q).natAbs : ℤ) = -(scaled7 q) := Int.ofNat_natAbs_of_nonpos (le_of_lt hneg)
    have hcast : (((scaled7 q).natAbs : ℕ) : ℚ) = -((scaled7 q : ℤ) : ℚ) := by
      calc (((scaled7 q).natAbs : ℕ) : ℚ) = (((scaled7 q).natAbs : ℤ) : ℚ) := (Int.cast_natCast _).symm
      _ = ((-(scaled7 q) : ℤ) : ℚ) := by rw [h1]
      _ = -((scaled7 q : ℤ) : ℚ) := by push_cast; ring
    simp only [Option.map_some', hcast]
    rw [neg_div, neg_neg]
  · rw [if_neg hneg, htl, List.nil_append]
    obtain ⟨c, cs, hcs⟩ := List.exists_cons_of_ne_nil (renderNat_ne_nil ((scaled7 q).natAbs / 10000000))
    have hc : (digit? c).isSome = true :=
      renderNat_digits _ c (hcs ▸ List.mem_cons_self c cs)
    rw [hcs, List.cons_append, parseDecList_digits_start c _ hc, ← List.cons_append, ← hcs,
      hA]
    have h1 : ((scaled7 q).natAbs : ℤ) = scaled7 q := Int.natAbs_of_nonneg (not_lt.mp hneg)
    have hcast : (((scaled7 q).natAbs : ℕ) : ℚ) = ((scaled7 q : ℤ) : ℚ) := by
      calc (((scaled7 q).natAbs : ℕ) : ℚ) = (((scaled7 q).natAbs : ℤ) : ℚ) := (Int.cast_natCast _).symm
      _ = ((scaled7 q : ℤ) : ℚ) := by rw [h1]
    rw [hcast]

theorem valOf_fmt7 (q : ℚ) : valOf (fmt7 q) = round7 q := by
  rw [valOf, parseDec_fmt7]; rfl

theorem scaled7_eq_round (q : ℚ) : scaled7 q = round (q * 10000000) := by
  rw [round_eq]
  have hd : ((q.den : ℚ)) ≠ 0 := Nat.cast_ne_zero.mpr q.den_nz
  have hnum : (q.num : ℚ) = q * (q.den : ℚ) := (div_eq_iff hd).mp (Rat.num_div_den q)
  have h : q * 10000000 + 1/2 =
      ((2 * 10000000 * q.num + (q.den : ℤ) : ℤ) : ℚ) / ((2 * q.den : ℕ) : ℚ) := by
    rw [eq_div_iff (by positivity : ((2 * q.den : ℕ) : ℚ) ≠ 0)]
    push_cast
    linear_combination (-20000000 : ℚ) * hnum
  rw [h, Rat.floor_intCast_div_natCast]
  rw [scaled7]
  push_cast
  rfl

theorem round7_eq_self {z : ℤ} : round7 ((z : ℚ) / 10000000) = (z : ℚ) / 10000000 := by
  rw [round7, scaled7_eq_round]
  have h : ((z:ℚ)/10000000) * 10000000 = (z:ℚ) :=
    div_mul_cancel₀ _ (by norm_num : (10000000:ℚ) ≠ 0)
  rw [h, round_intCast]

theorem round7_int_form (q : ℚ) : ∃ z : ℤ, round7 q = (z : ℚ) / 10000000 :=
  ⟨scaled7 q, rfl⟩

/-! ## Properties of the binary64 rounding -/

theorem roundHE_intCast (z : ℤ) : roundHE ((z : ℚ)) = z := by
  rw [roundHE, Int.fract_intCast, if_neg (by norm_num), round_intCast]

/-- `roundHE` picks a nearest integer. -/
theorem abs_roundHE_sub (x : ℚ) : |(roundHE x : ℚ) - x| ≤ 1 / 2 := by
  rw [roundHE]
  by_cases h : Int.fract x = 1 / 2
  · rw [if_pos h]
    have hx : x = (⌊x⌋ : ℚ) + 1 / 2 := by
      have h2 := Int.floor_add_fract x
      rw [h] at h2
      linarith
    by_cases h2 : 2 ∣ ⌊x⌋
    · rw [if_pos h2]
      have h3 : (⌊x⌋ : ℚ) - x = -(1 / 2) := by linarith
      rw [h3, abs_neg, abs_of_nonneg (by norm_num : (0 : ℚ) ≤ 1 / 2)]
    · rw [if_neg h2]
      have h3 : ((⌊x⌋ + 1 : ℤ) : ℚ) - x = 1 / 2 := by push_cast; linarith
      rw [h3, abs_of_nonneg (by norm_num : (0 : ℚ) ≤ 1 / 2)]
  · rw [if_neg h, abs_sub_comm]
    exact abs_sub_round x

/-- The base-2 logarithm characterized by its bracketing powers. -/
theorem int_log2_eq {r : ℚ} {a : ℕ} (h1 : 2 ^ a ≤ r) (h2 : r < 2 ^ (a + 1)) :
    Int.log 2 r = (a : ℤ) := by
  have hr : 0 < r := lt_of_lt_of_le (by positivity) h1
  have hle : (a : ℤ) ≤ Int.log 2 r := by
    rw [← Int.zpow_le_iff_le_log one_lt_two hr, zpow_natCast]
    exact_mod_cast h1
  have hlt : Int.log 2 r < (a : ℤ) + 1 := by
    rw [← Int.lt_zpow_iff_log_lt one_lt_two hr,
      show ((a : ℤ) + 1) = ((a + 1 : ℕ) : ℤ) by push_cast; ring, zpow_natCast]
    exact_mod_cast h2
  omega

theorem roundF64_zero : roundF64 0 = 0 := by
  rw [roundF64, if_pos rfl]

/-- A dyadic value with a significand below 2⁵³ is a binary64 value and is
fixed by the rounding. -/
theorem roundF64_dyadic (n : ℤ) (k : ℕ) (hn : n ≠ 0) (hb : n.natAbs < 2 ^ 53) :
    roundF64 ((n : ℚ) * 2 ^ k) = (n : ℚ) * 2 ^ k := by
  have hq0 : (n : ℚ) * 2 ^ k ≠ 0 :=
    mul_ne_zero (Int.cast_ne_zero.mpr hn) (by positivity)
  have hna : n.natAbs ≠ 0 := Int.natAbs_ne_zero.mpr hn
  have h1n : 2 ^ Nat.log 2 n.natAbs ≤ n.natAbs := Nat.pow_log_le_self 2 hna
  have h2n : n.natAbs < 2 ^ (Nat.log 2 n.natAbs + 1) := Nat.lt_pow_succ_log_self one_lt_two _
  have ha53 : Nat.log 2 n.natAbs ≤ 52 := by
    have h3 := Nat.log_lt_of_lt_pow hna hb
    omega
  have habs : |(n : ℚ) * 2 ^ k| = (n.natAbs : ℚ) * 2 ^ k := by
    rw [abs_mul, abs_of_pos (a := (2 : ℚ) ^ k) (by positivity), Nat.cast_natAbs,
      Int.cast_abs]
  have hlog : Int.log 2 |(n : ℚ) * 2 ^ k| = ((Nat.log 2 n.natAbs + k : ℕ) : ℤ) := by
    rw [habs]
    apply int_log2_eq
    · rw [pow_add]
      refine mul_le_mul_of_nonneg_right ?_ (by positivity)
      exact_mod_cast h1n
    · rw [show Nat.log 2 n.natAbs + k + 1 = Nat.log 2 n.natAbs + 1 + k by ring, pow_add]
      refine mul_lt_mul_of_pos_right ?_ (by positivity)
      exact_mod_cast h2n
  rw [roundF64, if_neg hq0, hlog]
  have hx : (n : ℚ) * 2 ^ k / 2 ^ (((Nat.log 2 n.natAbs + k : ℕ) : ℤ) - 52) =
      ((n * 2 ^ (52 - Nat.log 2 n.natAbs) : ℤ) : ℚ) := by
    rw [div_eq_iff (zpow_ne_zero _ (two_ne_zero (α := ℚ)))]
    have hcast : ((n * 2 ^ (52 - Nat.log 2 n.natAbs) : ℤ) : ℚ) =
        (n : ℚ) * 2 ^ (((52 - Nat.log 2 n.natAbs : ℕ) : ℤ)) := by
      push_cast
      rw [zpow_natCast]
    rw [hcast, mul_assoc, ← zpow_add₀ (two_ne_zero (α := ℚ))]
    have hexp : ((52 - Nat.log 2 n.natAbs : ℕ) : ℤ) +
        (((Nat.log 2 n.natAbs + k : ℕ) : ℤ) - 52) = ((k : ℕ) : ℤ) := by
      omega
    rw [hexp, zpow_natCast]
  rw [hx, roundHE_intCast, ← hx]
  exact div_mul_cancel₀ _ (zpow_ne_zero _ (two_ne_zero (α := ℚ)))

/-- Integers of magnitude below 2⁵³ are binary64 values. -/
theorem roundF64_intCast (z : ℤ) (h1 : z ≠ 0) (h2 : z.natAbs < 2 ^ 53) :
    roundF64 ((z : ℚ)) = (z : ℚ) := by
  have h := roundF64_dyadic z 0 h1 h2
  simpa using h

theorem roundF64_30 : roundF64 ((30 : ℚ)) = 30 := by
  have h := roundF64_intCast 30 (by norm_num) (by decide)
  exact_mod_cast h

theorem roundF64_29 : roundF64 ((29 : ℚ)) = 29 := by
  have h := roundF64_intCast 29 (by norm_num) (by decide)
  exact_mod_cast h

theorem roundF64_1 : roundF64 ((1 : ℚ)) = 1 := by
  have h := roundF64_intCast 1 (by norm_num) (by decide)
  exact_mod_cast h

theorem roundF64_big :
    roundF64 ((1152921504606846976 : ℚ)) = 1152921504606846976 := by
  have h := roundF64_dyadic 1 60 one_ne_zero (by decide)
  norm_num at h
  exact h

theorem f64Sub_50_20 : f64Sub ((50 : ℚ)) 20 = 30 := by
  rw [f64Sub, show (50 : ℚ) - 20 = 30 by norm_num, roundF64_30]

/-- The binary64 subtraction `30.0 - 2⁶⁰`: at the binade of `2⁶⁰ - 30` the
spacing is `2⁷ = 128`, and `30 < 64`, so the difference rounds to `-2⁶⁰`. -/
theorem roundF64_30_sub_big :
    roundF64 ((30 : ℚ) - 1152921504606846976) = -1152921504606846976 := by
  have hq : (30 : ℚ) - 1152921504606846976 = -1152921504606846946 := by norm_num
  rw [hq, roundF64, if_neg (by norm_num)]
  have habs : |(-1152921504606846946 : ℚ)| = 1152921504606846946 := by
    rw [abs_of_neg (by norm_num)]
    norm_num
  rw [habs]
  have hlog : Int.log 2 ((1152921504606846946 : ℚ)) = (59 : ℤ) := by
    have h := int_log2_eq (r := (1152921504606846946 : ℚ)) (a := 59)
      (by norm_num) (by norm_num)
    exact_mod_cast h
  rw [hlog, show (59 : ℤ) - 52 = 7 by norm_num]
  have h2p : (2 : ℚ) ^ (7 : ℤ) = 128 := by
    rw [show (7 : ℤ) = ((7 : ℕ) : ℤ) by norm_num, zpow_natCast]
    norm_num
  rw [h2p]
  have hx : (-1152921504606846946 : ℚ) / 128 =
      ((-9007199254740992 : ℤ) : ℚ) + 15 / 64 := by
    norm_num
  rw [hx, roundHE]
  have hfr : Int.fract (((-9007199254740992 : ℤ) : ℚ) + 15 / 64) = 15 / 64 := by
    rw [Int.fract_int_add, Int.fract_eq_self.mpr ⟨by norm_num, by norm_num⟩]
  rw [if_neg (by rw [hfr]; norm_num), round_int_add]
  have hr15 : round ((15 : ℚ) / 64) = 0 := by
    rw [round_eq, show (15 : ℚ) / 64 + 1 / 2 = 47 / 64 by norm_num]
    exact Int.floor_eq_zero_iff.mpr ⟨by norm_num, by norm_num⟩
  rw [hr15]
  norm_num

/-- The relative-error bound of one binary64 rounding: half an ulp, which is
at most `|q| / 2⁵³`. -/
theorem roundF64_err (q : ℚ) : |roundF64 q - q| ≤ |q| / 9007199254740992 := by
  by_cases h : q = 0
  · rw [h, roundF64_zero]
    norm_num
  · rw [roundF64, if_neg h]
    have h2 : (0 : ℚ) < 2 ^ (Int.log 2 |q| - 52) := zpow_pos (by norm_num) _
    have key : (roundHE (q / 2 ^ (Int.log 2 |q| - 52)) : ℚ) * 2 ^ (Int.log 2 |q| - 52) - q =
        ((roundHE (q / 2 ^ (Int.log 2 |q| - 52)) : ℚ) - q / 2 ^ (Int.log 2 |q| - 52)) *
          2 ^ (Int.log 2 |q| - 52) := by
      rw [sub_mul, div_mul_cancel₀ _ (ne_of_gt h2)]
    rw [key, abs_mul, abs_of_pos h2]
    have h1 : |(roundHE (q / 2 ^ (Int.log 2 |q| - 52)) : ℚ) -
        q / 2 ^ (Int.log 2 |q| - 52)| ≤ 1 / 2 := abs_roundHE_sub _
    refine le_trans (mul_le_mul_of_nonneg_right h1 (le_of_lt h2)) ?_
    have hlow : (2 : ℚ) ^ Int.log 2 |q| ≤ |q| := by
      have h3 := Int.zpow_log_le_self (b := 2) one_lt_two (abs_pos.mpr h)
      exact_mod_cast h3
    have hee : (1 : ℚ) / 2 * 2 ^ (Int.log 2 |q| - 52) =
        2 ^ Int.log 2 |q| / 9007199254740992 := by
      have h53 : (9007199254740992 : ℚ) = 2 ^ (53 : ℤ) := by
        rw [show (53 : ℤ) = ((53 : ℕ) : ℤ) by norm_num, zpow_natCast]
        norm_num
      rw [h53, ← zpow_sub₀ (two_ne_zero (α := ℚ)),
        show Int.log 2 |q| - 52 = Int.log 2 |q| - 53 + 1 by ring,
        zpow_add₀ (two_ne_zero (α := ℚ)), zpow_one]
      ring
    rw [hee]
    exact (div_le_div_iff_of_pos_right (by norm_num)).mpr hlow

/-- The fee computation in binary64: when the change line reads back as at
most a million (coins), the three roundings move the exact fee by far less
than half of the seventh decimal, so the printed fee is still exactly
`50 - 20 - change`. -/
theorem fee_eq_of_small (v : ℚ) (z : ℤ) (hv : v = (z : ℚ) / 10000000)
    (hb : |v| ≤ 1000000) :
    valOf (fmt7 (f64Sub (f64Sub 50 20) (roundF64 v))) = 50 - 20 - v := by
  rw [f64Sub_50_20]
  have herr1 : |roundF64 v - v| ≤ |v| / 9007199254740992 := roundF64_err v
  have herr2 : |f64Sub 30 (roundF64 v) - (30 - roundF64 v)| ≤
      |30 - roundF64 v| / 9007199254740992 := by
    rw [f64Sub]
    exact roundF64_err (30 - roundF64 v)
  have hb1 : |roundF64 v - v| ≤ 1000000 / 9007199254740992 :=
    le_trans herr1 ((div_le_div_iff_of_pos_right (by norm_num)).mpr hb)
  have hcb : |roundF64 v| ≤ 1000001 := by
    have h4 : |roundF64 v| ≤ |v| + |roundF64 v - v| := by
      have h5 := abs_add v (roundF64 v - v)
      have h6 : v + (roundF64 v - v) = roundF64 v := by ring
      rw [h6] at h5
      exact h5
    have h7 : |roundF64 v - v| ≤ 1 := le_trans hb1 (by norm_num)
    linarith
  have h30c : |30 - roundF64 v| ≤ 1000031 := by
    have h4 : |(30 : ℚ) - roundF64 v| ≤ |(30 : ℚ)| + |roundF64 v| := by
      rw [sub_eq_add_neg]
      refine le_trans (abs_add _ _) ?_
      rw [abs_neg]
    have h5 : |(30 : ℚ)| = 30 := by norm_num
    linarith
  have hb2 : |f64Sub 30 (roundF64 v) - (30 - roundF64 v)| ≤ 1000031 / 9007199254740992 :=
    le_trans herr2 ((div_le_div_iff_of_pos_right (by norm_num)).mpr h30c)
  have htot : |f64Sub 30 (roundF64 v) - (30 - v)| < 1 / 20000000 := by
    have tri : |f64Sub 30 (roundF64 v) - (30 - v)| ≤
        |f64Sub 30 (roundF64 v) - (30 - roundF64 v)| + |(30 - roundF64 v) - (30 - v)| :=
      abs_sub_le _ _ _
    have heq : |(30 - roundF64 v) - (30 - v)| = |roundF64 v - v| := by
      rw [show (30 : ℚ) - roundF64 v - (30 - v) = -(roundF64 v - v) by ring, abs_neg]
    rw [heq] at tri
    have hsum : |f64Sub 30 (roundF64 v) - (30 - v)| ≤
        1000031 / 9007199254740992 + 1000000 / 9007199254740992 :=
      le_trans tri (add_le_add hb2 hb1)
    refine lt_of_le_of_lt hsum ?_
    norm_num
  rw [valOf_fmt7, round7, scaled7_eq_round]
  have hz30 : (30 : ℚ) - v = ((300000000 - z : ℤ) : ℚ) / 10000000 := by
    rw [hv]
    push_cast
    ring
  have hfl : round (f64Sub 30 (roundF64 v) * 10000000) = 300000000 - z := by
    have hd : f64Sub 30 (roundF64 v) * 10000000 =
        ((300000000 - z : ℤ) : ℚ) + (f64Sub 30 (roundF64 v) - (30 - v)) * 10000000 := by
      have h4 : ((300000000 - z : ℤ) : ℚ) = (30 - v) * 10000000 := by
        rw [hz30]
        field_simp
      rw [h4]
      ring
    rw [hd, round_int_add]
    have habs : |(f64Sub 30 (roundF64 v) - (30 - v)) * 10000000| < 1 / 2 := by
      rw [abs_mul, abs_of_pos (by norm_num : (0 : ℚ) < 10000000)]
      calc |f64Sub 30 (roundF64 v) - (30 - v)| * 10000000
          < 1 / 20000000 * 10000000 := by
            exact mul_lt_mul_of_pos_right htot (by norm_num)
        _ = 1 / 2 := by norm_num
    have hr0 : round ((f64Sub 30 (roundF64 v) - (30 - v)) * 10000000) = 0 := by
      rw [round_eq]
      obtain ⟨hl, hr⟩ := abs_lt.mp habs
      refine Int.floor_eq_zero_iff.mpr ⟨by linarith, by linarith⟩
    rw [hr0, add_zero]
  rw [hfl, ← hz30]
  ring

/-! ## Rendered addresses survive the quote trimming -/

theorem validAddressB_ne_empty {s : String} (h : validAddressB s = true) : s ≠ "" := by
  intro hs
  rw [hs] at h
  exact absurd h (by decide)

theorem validAddressB_no_quote {s : String} (h : validAddressB s = true) :
    ∀ c ∈ s.toList, c ≠ '"' := by
  intro c hc hq
  rw [validAddressB, Bool.and_eq_true] at h
  have h2 := List.all_eq_true.mp h.2 c hc
  rw [hq] at h2
  exact absurd h2 (by decide)

theorem toList_ne_nil {s : String} (h : s ≠ "") : s.toList ≠ [] := by
  intro hl
  apply h
  obtain ⟨data⟩ := s
  have hd : data = [] := hl
  rw [hd]

/-- On a non-empty string without quote characters — every rendered address —
`format!("{:?}", a).trim_matches('"')` gives the string back. -/
theorem addr_str_id {s : String} (hne : s ≠ "") (hq : ∀ c ∈ s.toList, c ≠ '"') :
    addr_str s = s := by
  obtain ⟨data⟩ := s
  have hdq : ∀ c ∈ data, c ≠ '"' := hq
  have hdne : data ≠ [] := by
    intro h2
    exact hne (by rw [show (String.mk data) = String.mk [] by rw [h2]])
  obtain ⟨c0, rest, rfl⟩ := List.exists_cons_of_ne_nil hdne
  have hc0 : c0 ≠ '"' := hdq c0 (List.mem_cons_self c0 rest)
  rw [addr_str, debug_quote, trimMatchesQuote]
  have htl : ("\"" ++ String.mk (c0 :: rest) ++ "\"").toList =
      '"' :: ((c0 :: rest) ++ [ '"' ]) := rfl
  rw [htl]
  rw [List.dropWhile_cons, if_pos (by decide)]
  rw [List.cons_append, List.dropWhile_cons, if_neg (by simp [hc0])]
  rw [← List.cons_append, List.reverse_append, List.reverse_singleton,
    List.singleton_append]
  rw [List.dropWhile_cons, if_pos (by decide)]
  cases hrev : (c0 :: rest).reverse with
  | nil => exact absurd hrev (by simp)
  | cons d l2 =>
    have hd : d ∈ c0 :: rest := by
      have h3 : d ∈ (c0 :: rest).reverse := by
        rw [hrev]
        exact List.mem_cons_self d l2
      exact List.mem_reverse.mp h3
    have hdn : d ≠ '"' := hdq d hd
    rw [List.dropWhile_cons, if_neg (by simp [hdn])]
    rw [← hrev, List.reverse_reverse]

/-! ## Properties of the change-output scan -/

theorem find_change_shape : ∀ (vs : List Json) (tr : String) (p : String × String),
    find_change tr vs = Outcome.ok p →
    p = ("", "") ∨ (p.1 ≠ tr ∧ ∃ q : ℚ, p.2 = fmt7 q) := by
  intro vs
  induction vs with
  | nil =>
    intro tr p h
    simp only [find_change] at h
    left
    exact (Outcome.ok.inj h).symm
  | cons o rest ih =>
    intro tr p h
    simp only [find_change] at h
    cases ha : ((o.get ("scriptPubKey")).get ("addresses")).as_array with
    | none =>
      simp only [ha] at h
      exact ih tr p h
    | some addresses =>
      simp only [ha] at h
      cases addresses with
      | nil => exact absurd h (by simp)
      | cons a0 rest2 =>
        cases hs : a0.as_str with
        | none =>
          simp only [hs] at h
          exact ih tr p h
        | some address =>
          simp only [hs] at h
          by_cases haddr : address ≠ tr
          · rw [if_pos haddr] at h
            right
            obtain rfl := (Outcome.ok.inj h).symm
            exact ⟨haddr, _, rfl⟩
          · rw [if_neg haddr] at h
            exact ih tr p h

theorem find_change_none : ∀ (vs : List Json) (tr : String),
    (∀ o ∈ vs, noChangeOutputB tr o = true) →
    find_change tr vs = Outcome.ok ("", "") := by
  intro vs
  induction vs with
  | nil => intro tr _; rfl
  | cons o rest ih =>
    intro tr h
    have ho := h o (List.mem_cons_self o rest)
    have hrest := ih tr fun x hx => h x (List.mem_cons_of_mem o hx)
    simp only [find_change]
    rw [noChangeOutputB] at ho
    cases ha : ((o.get ("scriptPubKey")).get ("addresses")).as_array with
    | none => simp only [ha]; exact hrest
    | some addresses =>
      simp only [ha] at ho ⊢
      cases addresses with
      | nil => exact absurd ho (by simp)
      | cons a0 rest2 =>
        cases hs : a0.as_str with
        | none => simp only [hs]; exact hrest
        | some address =>
          simp only [hs] at ho ⊢
          have haddr : address = tr := by simpa using ho
          rw [if_neg (by simp [haddr])]
          exact hrest

theorem find_change_no_panic : ∀ (vs : List Json) (tr : String),
    (∀ o ∈ vs, outputAddrOkB o = true) →
    ∃ p, find_change tr vs = Outcome.ok p := by
  intro vs
  induction vs with
  | nil => intro tr _; exact ⟨("", ""), rfl⟩
  | cons o rest ih =>
    intro tr h
    have ho := h o (List.mem_cons_self o rest)
    have hrest := ih tr fun x hx => h x (List.mem_cons_of_mem o hx)
    simp only [find_change]
    rw [outputAddrOkB] at ho
    cases ha : ((o.get ("scriptPubKey")).get ("addresses")).as_array with
    | none => simp only [ha]; exact hrest
    | some addresses =>
      simp only [ha] at ho ⊢
      cases addresses with
      | nil => exact absurd ho (by simp)
      | cons a0 rest2 =>
        cases hs : a0.as_str with
        | none => simp only [hs]; exact hrest
        | some address =>
          simp only [hs]
          by_cases haddr : address ≠ tr
          · rw [if_pos haddr]
            exact ⟨_, rfl⟩
          · rw [if_neg haddr]
            exact hrest

/-! ## Lines of the output file -/

theorem splitNl_ne_nil (l : List Char) : splitNl l ≠ [] := by
  cases l with
  | nil => simp [splitNl]
  | cons c cs =>
    simp only [splitNl]
    by_cases h : c = '\n'
    · rw [if_pos h]; simp
    · rw [if_neg h]; simp

theorem splitNl_append (l rest : List Char) (hl : ('\n' : Char) ∉ l) :
    splitNl (l ++ '\n' :: rest) = l :: splitNl rest := by
  induction l with
  | nil =>
    simp only [List.nil_append, splitNl, if_true]
  | cons c cs ih =>
    have hc : ¬(c = '\n') := fun h => hl (h ▸ List.mem_cons_self c cs)
    rw [List.cons_append]
    simp only [splitNl]
    rw [if_neg hc, ih fun h => hl (List.mem_cons_of_mem c h)]
    simp

theorem splitNl_length : ∀ (l : List Char), (splitNl l).length = l.count '\n' + 1 := by
  intro l
  induction l with
  | nil => rfl
  | cons c cs ih =>
    simp only [splitNl]
    by_cases h : c = '\n'
    · subst h
      rw [if_pos rfl]
      simp [ih, List.count_cons]
    · rw [if_neg h]
      have hne := splitNl_ne_nil cs
      have : ((c :: (splitNl cs).headD []) :: (splitNl cs).tail).length = (splitNl cs).length := by
        cases hcs : splitNl cs with
        | nil => exact absurd hcs hne
        | cons x xs => simp
      rw [this, ih, List.count_cons]
      simp [h]

/-! ## Inversion lemmas for a successful run -/

theorem rpcCall_ok_inv {α : Type} {c : Call} {x : Except Err α} {a : α} {t : List Ev}
    (h : rpcCall c x = (Outcome.ok a, t)) : x = Except.ok a ∧ t = [Ev.call c true] := by
  cases x <;> simp_all [rpcCall]

theorem liftE_ok_inv {α : Type} {x : Except Err α} {a : α} {t : List Ev}
    (h : liftE x = (Outcome.ok a, t)) : x = Except.ok a ∧ t = [] := by
  cases x <;> simp_all [liftE]

theorem stepM_ok_inv {n : ℕ} {a : Unit} {t : List Ev}
    (h : stepM n = (Outcome.ok a, t)) : t = [Ev.step n] := by
  simp_all [stepM]

theorem ofOutcome_ok_inv {α : Type} {o : Outcome α} {a : α} {t : List Ev}
    (h : ofOutcome o = (Outcome.ok a, t)) : o = Outcome.ok a ∧ t = [] := by
  cases o <;> simp_all [ofOutcome]

theorem headPanic_ok_inv {α : Type} {l : List α} {a : α}
    (h : headPanic l = Outcome.ok a) : l.head? = some a := by
  cases l <;> simp_all [headPanic]

theorem unwrapArr_ok_inv {j : Json} {vs : List Json}
    (h : unwrapArr j = Outcome.ok vs) : j.as_array = some vs := by
  rw [unwrapArr] at h
  cases hj : j.as_array with
  | none => rw [hj] at h; exact absurd h (by simp)
  | some xs => rw [hj] at h; rw [Outcome.ok.inj h]

theorem pure_ok_inv {α : Type} {a b : α} {t : List Ev}
    (h : (pure a : M α) = (Outcome.ok b, t)) : a = b ∧ t = [] := by
  have h0 : (pure a : M α) = (Outcome.ok a, ([] : List Ev)) := rfl
  rw [h0, Prod.mk.injEq] at h
  exact ⟨Outcome.ok.inj h.1, h.2.symm⟩

@[simp] theorem stepsOf_nil : stepsOf [] = [] := rfl

@[simp] theorem stepsOf_append (a b : List Ev) :
    stepsOf (a ++ b) = stepsOf a ++ stepsOf b := by
  simp [stepsOf, List.filterMap_append]

@[simp] theorem stepsOf_call (c : Call) (s : Bool) (rest : List Ev) :
    stepsOf (Ev.call c s :: rest) = stepsOf rest := rfl

@[simp] theorem stepsOf_step (n : ℕ) (rest : List Ev) :
    stepsOf (Ev.step n :: rest) = n :: stepsOf rest := rfl

theorem colw_ok_steps (w : WalletEnv) (name : String) :
    stepsOf (create_or_load_wallet w name).2 = [] := by
  obtain ⟨l1, c, l2⟩ := w
  cases l1 <;> cases c <;> cases l2 <;> simp [create_or_load_wallet, stepsOf]

/-- Characterization of every run of `main` that returns `ok`: which node
responses it consumed, how the output fields are computed from them, and that
the step banners are exactly 1–9 in order. -/
theorem main_ok_shape (env : NodeEnv) (out : Output) (t : List Ev)
    (h : main env = (Outcome.ok out, t)) :
    ∃ (minerAddr traderAddr : Address) (txid bh0 : String) (hashes : List String)
      (txj blockj : Json) (vout : List Json) (chg : String × String)
      (twM twT : List Ev),
      env.miningAddress = Except.ok minerAddr ∧
      env.traderAddress = Except.ok traderAddr ∧
      env.sendResult = Except.ok txid ∧
      env.mine1 = Except.ok hashes ∧
      hashes.head? = some bh0 ∧
      env.txDetails = Except.ok txj ∧
      env.blockDetails = Except.ok blockj ∧
      (txj.get ("vout")).as_array = some vout ∧
      find_change (addr_str traderAddr.render) vout = Outcome.ok chg ∧
      create_or_load_wallet env.minerWallet ("Miner") = (Outcome.ok (), twM) ∧
      create_or_load_wallet env.traderWallet ("Trader") = (Outcome.ok (), twT) ∧
      stepsOf t = [1, 2, 3, 4, 5, 6, 7, 8, 9] ∧
      out = { txid := txid
              minerInputAddress := addr_str minerAddr.render
              minerInputAmount := "50"
              traderOutputAddress := addr_str traderAddr.render
              traderOutputAmount := "20"
              minerChangeAddress := chg.1
              minerChangeAmount := chg.2
              transactionFees := fmt7 (f64Sub (f64Sub 50 20) (roundF64 (valOf chg.2)))
              blockHeight := Nat.repr (((blockj.get ("height")).as_u64).getD 0)
              blockHash := bh0 } := by
  rw [main] at h
  obtain ⟨u1, s1, r1, hc1, h1, rfl⟩ := M.okBind h
  obtain ⟨u2, s2, r2, hc2, h2, rfl⟩ := M.okBind h1
  obtain ⟨u3, s3, r3, hc3, h3, rfl⟩ := M.okBind h2
  obtain ⟨u4, twM, r4, hc4, h4, rfl⟩ := M.okBind h3
  obtain ⟨u5, twT, r5, hc5, h5, rfl⟩ := M.okBind h4
  obtain ⟨u6, s6, r6, hc6, h6, rfl⟩ := M.okBind h5
  obtain ⟨u7, s7, r7, hc7, h7, rfl⟩ := M.okBind h6
  obtain ⟨minerAddr, s8, r8, hc8, h8, rfl⟩ := M.okBind h7
  obtain ⟨u9, s9, r9, hc9, h9, rfl⟩ := M.okBind h8
  obtain ⟨u10, s10, r10, hc10, h10, rfl⟩ := M.okBind h9
  obtain ⟨u11, s11, r11, hc11, h11, rfl⟩ := M.okBind h10
  obtain ⟨u12, s12, r12, hc12, h12, rfl⟩ := M.okBind h11
  obtain ⟨u13, s13, r13, hc13, h13, rfl⟩ := M.okBind h12
  obtain ⟨traderAddr, s14, r14, hc14, h14, rfl⟩ := M.okBind h13
  obtain ⟨u15, s15, r15, hc15, h15, rfl⟩ := M.okBind h14
  obtain ⟨sendAmt, s16, r16, hc16, h16, rfl⟩ := M.okBind h15
  obtain ⟨txid, s17, r17, hc17, h17, rfl⟩ := M.okBind h16
  obtain ⟨u18, s18, r18, hc18, h18, rfl⟩ := M.okBind h17
  obtain ⟨u19, s19, r19, hc19, h19, rfl⟩ := M.okBind h18
  obtain ⟨u20, s20, r20, hc20, h20, rfl⟩ := M.okBind h19
  obtain ⟨hashes, s21, r21, hc21, h21, rfl⟩ := M.okBind h20
  obtain ⟨bh0, s22, r22, hc22, h22, rfl⟩ := M.okBind h21
  obtain ⟨u23, s23, r23, hc23, h23, rfl⟩ := M.okBind h22
  obtain ⟨txj, s24, r24, hc24, h24, rfl⟩ := M.okBind h23
  obtain ⟨blockj, s25, r25, hc25, h25, rfl⟩ := M.okBind h24
  obtain ⟨vout, s26, r26, hc26, h26, rfl⟩ := M.okBind h25
  obtain ⟨chg, s27, r27, hc27, h27, rfl⟩ := M.okBind h26
  obtain ⟨u28, s28, r28, hc28, h28, rfl⟩ := M.okBind h27
  obtain ⟨u29, s29, r29, hc29, h29, rfl⟩ := M.okBind h28
  obtain ⟨hout, rfl⟩ := pure_ok_inv h29
  obtain ⟨rfl⟩ := u4
  obtain ⟨rfl⟩ := u5
  obtain ⟨henv1, rfl⟩ := liftE_ok_inv hc1
  obtain ⟨henv2, rfl⟩ := rpcCall_ok_inv hc2
  obtain rfl := stepM_ok_inv hc3
  obtain rfl := stepM_ok_inv hc6
  obtain ⟨henv7, rfl⟩ := liftE_ok_inv hc7
  obtain ⟨henv8, rfl⟩ := rpcCall_ok_inv hc8
  obtain rfl := stepM_ok_inv hc9
  obtain ⟨henv10, rfl⟩ := rpcCall_ok_inv hc10
  obtain ⟨henv11, rfl⟩ := rpcCall_ok_inv hc11
  obtain rfl := stepM_ok_inv hc12
  obtain ⟨henv13, rfl⟩ := liftE_ok_inv hc13
  obtain ⟨henv14, rfl⟩ := rpcCall_ok_inv hc14
  obtain rfl := stepM_ok_inv hc15
  obtain ⟨henv16, rfl⟩ := liftE_ok_inv hc16
  obtain ⟨henv17, rfl⟩ := rpcCall_ok_inv hc17
  obtain rfl := stepM_ok_inv hc18
  obtain ⟨henv19, rfl⟩ := rpcCall_ok_inv hc19
  obtain rfl := stepM_ok_inv hc20
  obtain ⟨henv21, rfl⟩ := rpcCall_ok_inv hc21
  obtain ⟨hhead, rfl⟩ := ofOutcome_ok_inv hc22
  obtain rfl := stepM_ok_inv hc23
  obtain ⟨henv24, rfl⟩ := rpcCall_ok_inv hc24
  obtain ⟨henv25, rfl⟩ := rpcCall_ok_inv hc25
  obtain ⟨hvarr, rfl⟩ := ofOutcome_ok_inv hc26
  obtain ⟨hfind, rfl⟩ := ofOutcome_ok_inv hc27
  obtain rfl := stepM_ok_inv hc28
  obtain ⟨henv29, rfl⟩ := liftE_ok_inv hc29
  have hsM : stepsOf twM = [] := by
    have h2 := colw_ok_steps env.minerWallet ("Miner")
    rw [hc4] at h2
    simpa using h2
  have hsT : stepsOf twT = [] := by
    have h2 := colw_ok_steps env.traderWallet ("Trader")
    rw [hc5] at h2
    simpa using h2
  refine ⟨minerAddr, traderAddr, txid, bh0, hashes, txj, blockj, vout, chg, twM, twT,
    henv8, henv14, henv17, henv21, headPanic_ok_inv hhead, henv24, henv25,
    unwrapArr_ok_inv hvarr, hfind, hc4, hc5, ?_, hout.symm⟩
  simp [hsM, hsT]

/-! ## Where failed calls can sit in a trace -/

theorem traceOkP_bind {α β : Type} {x : M α} {f : α → M β}
    (hx : TraceOkP x) (hf : ∀ a, TraceOkP (f a)) : TraceOkP (x >>= f) := by
  rw [M.bind_eq]
  obtain ⟨r, t1⟩ := x
  cases r with
  | ok a =>
    rw [M.bind_ok]
    intro ev hev hfail
    rcases List.mem_append.mp hev with hm | hm
    · rcases hx ev hm hfail with hw | ⟨_, habs⟩
      · exact Or.inl hw
      · simp [Outcome.isErr] at habs
    · rcases hf a ev hm hfail with hw | ⟨hlast, herr⟩
      · exact Or.inl hw
      · refine Or.inr ⟨?_, herr⟩
        rw [List.getLast?_append, hlast]
        rfl
  | err e =>
    rw [M.bind_err]
    exact hx
  | panic s =>
    rw [M.bind_panic]
    exact hx

theorem traceOkP_liftE {α : Type} (x : Except Err α) : TraceOkP (liftE x) := by
  cases x <;> (intro ev hev hfail) <;> simp [liftE] at hev

theorem traceOkP_rpcCall {α : Type} (c : Call) (x : Except Err α) : TraceOkP (rpcCall c x) := by
  cases x with
  | ok a =>
    intro ev hev hfail
    rw [rpcCall_ok] at hev
    simp at hev
    subst hev
    simp [evFailed] at hfail
  | error e =>
    intro ev hev hfail
    rw [rpcCall_error] at hev ⊢
    simp at hev
    subst hev
    exact Or.inr ⟨rfl, rfl⟩

theorem traceOkP_stepM (n : ℕ) : TraceOkP (stepM n) := by
  intro ev hev hfail
  simp [stepM] at hev
  subst hev
  simp [evFailed] at hfail

theorem traceOkP_ofOutcome {α : Type} (o : Outcome α) : TraceOkP (ofOutcome o) := by
  intro ev hev _
  simp [ofOutcome] at hev

theorem traceOkP_pure {α : Type} (a : α) : TraceOkP (pure a : M α) := by
  intro ev hev _
  simp [pure, instMonadM] at hev

theorem traceOkP_colw (w : WalletEnv) (name : String) :
    TraceOkP (create_or_load_wallet w name) := by
  obtain ⟨l1, c, l2⟩ := w
  cases l1 <;> cases c <;> cases l2 <;>
    (intro ev hev hfail; fin_cases hev <;> exact Or.inl rfl)

/-- Failed RPC calls in a run of `main` are either wallet load/create calls
inside `create_or_load_wallet` or the final event of an aborted run. -/
theorem main_traceOk (env : NodeEnv) : TraceOkP (main env) := by
  rw [main]
  refine traceOkP_bind (traceOkP_liftE _) fun _ => ?_
  refine traceOkP_bind (traceOkP_rpcCall _ _) fun _ => ?_
  refine traceOkP_bind (traceOkP_stepM _) fun _ => ?_
  refine traceOkP_bind (traceOkP_colw _ _) fun _ => ?_
  refine traceOkP_bind (traceOkP_colw _ _) fun _ => ?_
  refine traceOkP_bind (traceOkP_stepM _) fun _ => ?_
  refine traceOkP_bind (traceOkP_liftE _) fun _ => ?_
  refine traceOkP_bind (traceOkP_rpcCall _ _) fun mining_address => ?_
  refine traceOkP_bind (traceOkP_stepM _) fun _ => ?_
  refine traceOkP_bind (traceOkP_rpcCall _ _) fun _ => ?_
  refine traceOkP_bind (traceOkP_rpcCall _ _) fun _ => ?_
  refine traceOkP_bind (traceOkP_stepM _) fun _ => ?_
  refine traceOkP_bind (traceOkP_liftE _) fun _ => ?_
  refine traceOkP_bind (traceOkP_rpcCall _ _) fun trader_address => ?_
  refine traceOkP_bind (traceOkP_stepM _) fun _ => ?_
  refine traceOkP_bind (traceOkP_liftE _) fun send_amount => ?_
  refine traceOkP_bind (traceOkP_rpcCall _ _) fun txid => ?_
  refine traceOkP_bind (traceOkP_stepM _) fun _ => ?_
  refine traceOkP_bind (traceOkP_rpcCall _ _) fun _ => ?_
  refine traceOkP_bind (traceOkP_stepM _) fun _ => ?_
  refine traceOkP_bind (traceOkP_rpcCall _ _) fun block_hashes => ?_
  refine traceOkP_bind (traceOkP_ofOutcome _) fun bh => ?_
  refine traceOkP_bind (traceOkP_stepM _) fun _ => ?_
  refine traceOkP_bind (traceOkP_rpcCall _ _) fun tx_details => ?_
  refine traceOkP_bind (traceOkP_rpcCall _ _) fun block_details => ?_
  refine traceOkP_bind (traceOkP_ofOutcome _) fun vout => ?_
  refine traceOkP_bind (traceOkP_ofOutcome _) fun chg => ?_
  refine traceOkP_bind (traceOkP_stepM _) fun _ => ?_
  refine traceOkP_bind (traceOkP_liftE _) fun _ => ?_
  exact traceOkP_pure _

/-! ## Absence of panics under the well-formedness precondition -/

theorem noPanic_bind {α β : Type} {x : M α} {f : α → M β}
    (hx : NoPanic x) (hf : ∀ a t1, x = (Outcome.ok a, t1) → NoPanic (f a)) :
    NoPanic (x >>= f) := by
  rw [M.bind_eq]
  obtain ⟨r, t1⟩ := x
  cases r with
  | ok a =>
    rw [M.bind_ok]
    exact hf a t1 rfl
  | err e =>
    rw [M.bind_err]
    rfl
  | panic s =>
    rw [M.bind_panic]
    exact hx

theorem noPanic_liftE {α : Type} (x : Except Err α) : NoPanic (liftE x) := by
  cases x <;> rfl

theorem noPanic_rpcCall {α : Type} (c : Call) (x : Except Err α) : NoPanic (rpcCall c x) := by
  cases x <;> rfl

theorem noPanic_stepM (n : ℕ) : NoPanic (stepM n) := rfl

theorem noPanic_pure {α : Type} (a : α) : NoPanic (pure a : M α) := rfl

theorem noPanic_colw (w : WalletEnv) (name : String) :
    NoPanic (create_or_load_wallet w name) := by
  obtain ⟨l1, c, l2⟩ := w
  cases l1 <;> cases c <;> cases l2 <;> rfl

theorem noPanic_ofOutcome {α : Type} {o : Outcome α} (h : o.isPanic = false) :
    NoPanic (ofOutcome o) := h

theorem headPanic_isPanic {α : Type} {l : List α} (h : l ≠ []) :
    (headPanic l).isPanic = false := by
  cases l with
  | nil => exact absurd rfl h
  | cons a r => rfl

theorem unwrapArr_isPanic {j : Json} {vs : List Json} (h : j.as_array = some vs) :
    (unwrapArr j).isPanic = false := by
  simp only [unwrapArr, h]
  rfl

/-- Under the panic precondition, `main` never panics: an ill response makes
the run abort with an error, never by the three partial operations. -/
theorem main_noPanic (env : NodeEnv) (hpre : PrePanicB env = true) : NoPanic (main env) := by
  rw [PrePanicB, Bool.and_eq_true] at hpre
  obtain ⟨hp1, hp2⟩ := hpre
  rw [main]
  refine noPanic_bind (noPanic_liftE _) fun _ _ _ => ?_
  refine noPanic_bind (noPanic_rpcCall _ _) fun _ _ _ => ?_
  refine noPanic_bind (noPanic_stepM _) fun _ _ _ => ?_
  refine noPanic_bind (noPanic_colw _ _) fun _ _ _ => ?_
  refine noPanic_bind (noPanic_colw _ _) fun _ _ _ => ?_
  refine noPanic_bind (noPanic_stepM _) fun _ _ _ => ?_
  refine noPanic_bind (noPanic_liftE _) fun _ _ _ => ?_
  refine noPanic_bind (noPanic_rpcCall _ _) fun mining_address _ _ => ?_
  refine noPanic_bind (noPanic_stepM _) fun _ _ _ => ?_
  refine noPanic_bind (noPanic_rpcCall _ _) fun _ _ _ => ?_
  refine noPanic_bind (noPanic_rpcCall _ _) fun _ _ _ => ?_
  refine noPanic_bind (noPanic_stepM _) fun _ _ _ => ?_
  refine noPanic_bind (noPanic_liftE _) fun _ _ _ => ?_
  refine noPanic_bind (noPanic_rpcCall _ _) fun trader_address _ _ => ?_
  refine noPanic_bind (noPanic_stepM _) fun _ _ _ => ?_
  refine noPanic_bind (noPanic_liftE _) fun send_amount _ _ => ?_
  refine noPanic_bind (noPanic_rpcCall _ _) fun txid _ _ => ?_
  refine noPanic_bind (noPanic_stepM _) fun _ _ _ => ?_
  refine noPanic_bind (noPanic_rpcCall _ _) fun _ _ _ => ?_
  refine noPanic_bind (noPanic_stepM _) fun _ _ _ => ?_
  refine noPanic_bind (noPanic_rpcCall _ _) fun block_hashes _ hbh => ?_
  obtain ⟨hmine1, _⟩ := rpcCall_ok_inv hbh
  have hp1' : (!block_hashes.isEmpty) = true := by rw [hmine1] at hp1; exact hp1
  have hne : block_hashes ≠ [] := by
    cases block_hashes with
    | nil => simp at hp1'
    | cons a r => simp
  refine noPanic_bind (noPanic_ofOutcome (headPanic_isPanic hne)) fun bh _ _ => ?_
  refine noPanic_bind (noPanic_stepM _) fun _ _ _ => ?_
  refine noPanic_bind (noPanic_rpcCall _ _) fun tx_details _ htx => ?_
  obtain ⟨htxd, _⟩ := rpcCall_ok_inv htx
  have hp2' : (match (tx_details.get ("vout")).as_array with
      | some vs => vs.all outputAddrOkB
      | none => false) = true := by rw [htxd] at hp2; exact hp2
  cases hva : (tx_details.get ("vout")).as_array with
  | none => rw [hva] at hp2'; simp at hp2'
  | some vs =>
  have hall2 : vs.all outputAddrOkB = true := by rw [hva] at hp2'; exact hp2'
  refine noPanic_bind (noPanic_rpcCall _ _) fun block_details _ _ => ?_
  refine noPanic_bind (noPanic_ofOutcome (unwrapArr_isPanic hva)) fun vout _ hvout => ?_
  obtain ⟨huw, _⟩ := ofOutcome_ok_inv hvout
  have hveq : vout = vs := by
    have h2 := unwrapArr_ok_inv huw
    rw [hva] at h2
    exact (Option.some.inj h2).symm
  have hall : ∀ o ∈ vout, outputAddrOkB o = true := by
    rw [hveq]
    exact fun o ho => List.all_eq_true.mp hall2 o ho
  obtain ⟨p, hp⟩ := find_change_no_panic vout (addr_str trader_address.render) hall
  refine noPanic_bind (noPanic_ofOutcome (by rw [hp]; rfl)) fun chg _ _ => ?_
  refine noPanic_bind (noPanic_stepM _) fun _ _ _ => ?_
  refine noPanic_bind (noPanic_liftE _) fun _ _ _ => ?_
  exact noPanic_pure _

/-! ## Evaluation on the concrete environments -/

theorem valOf_empty : valOf ("") = 0 := rfl

theorem scaled7_30 : scaled7 (30 : ℚ) = 300000000 := by
  rw [scaled7]
  simp only [Rat.num_ofNat, Rat.den_ofNat]
  decide

theorem fmt7_30 : fmt7 (30 : ℚ) = "30.0000000" := by
  rw [fmt7, scaled7_30]
  decide

theorem scaled7_29 : scaled7 (29 : ℚ) = 290000000 := by
  rw [scaled7]
  simp only [Rat.num_ofNat, Rat.den_ofNat]
  decide

theorem fmt7_29 : fmt7 (29 : ℚ) = "29.0000000" := by
  rw [fmt7, scaled7_29]
  decide

theorem scaled7_1 : scaled7 (1 : ℚ) = 10000000 := by
  rw [scaled7]
  simp only [Rat.num_ofNat, Rat.den_ofNat]
  decide

theorem fmt7_1 : fmt7 (1 : ℚ) = "1.0000000" := by
  rw [fmt7, scaled7_1]
  decide

theorem fee_empty_fmt :
    fmt7 (f64Sub (f64Sub 50 20) (roundF64 (valOf ("")))) = "30.0000000" := by
  rw [valOf_empty, roundF64_zero, f64Sub_50_20, f64Sub,
    show (30 : ℚ) - 0 = 30 by norm_num, roundF64_30, fmt7_30]

theorem valOf_29str : valOf ("29.0000000") = 29 := by
  rw [← fmt7_29, valOf_fmt7, round7, scaled7_29]
  norm_num

theorem fee_change_fmt :
    fmt7 (f64Sub (f64Sub 50 20) (roundF64 (valOf (fmt7 ((29 : ℚ)))))) = "1.0000000" := by
  rw [fmt7_29, valOf_29str, roundF64_29, f64Sub_50_20, f64Sub,
    show (30 : ℚ) - 29 = 1 by norm_num, roundF64_1, fmt7_1]

theorem main_envOk : main envOk = (Outcome.ok outOk, trOk) := by
  have h0 : main envOk =
      (Outcome.ok { outOk with
        transactionFees := fmt7 (f64Sub (f64Sub 50 20) (roundF64 (valOf ("")))) },
       trOk) := rfl
  rw [h0, fee_empty_fmt]
  rfl

theorem main_envChange : main envChange = (Outcome.ok outChange, trOk) := by
  have h0 : main envChange =
      (Outcome.ok { outOk with
        minerChangeAddress := "chaddr"
        minerChangeAmount := fmt7 (roundF64 ((29 : ℚ)))
        transactionFees := fmt7 (f64Sub (f64Sub 50 20)
          (roundF64 (valOf (fmt7 (roundF64 ((29 : ℚ))))))) }, trOk) := rfl
  rw [h0, roundF64_29, fee_change_fmt, fmt7_29]
  rfl

theorem main_envNlTxid_fst : (main envNlTxid).1 = Outcome.ok outNlTxid := by
  have h0 : (main envNlTxid).1 =
      Outcome.ok { outNlTxid with
        transactionFees := fmt7 (f64Sub (f64Sub 50 20) (roundF64 (valOf ("")))) } := rfl
  rw [h0, fee_empty_fmt]
  rfl

theorem scaled7_big :
    scaled7 ((1152921504606846976 : ℚ)) = 11529215046068469760000000 := by
  rw [scaled7]
  simp only [Rat.num_ofNat, Rat.den_ofNat]
  decide

theorem fmt7_big :
    fmt7 ((1152921504606846976 : ℚ)) = "1152921504606846976.0000000" := by
  rw [fmt7, scaled7_big]
  decide

theorem valOf_big :
    valOf ("1152921504606846976.0000000") = 1152921504606846976 := by
  rw [← fmt7_big, valOf_fmt7, round7, scaled7_big]
  norm_num

theorem scaled7_negbig :
    scaled7 ((-1152921504606846976 : ℚ)) = -11529215046068469760000000 := by
  rw [scaled7, Rat.num_neg_eq_neg_num, Rat.den_neg_eq_den]
  simp only [Rat.num_ofNat, Rat.den_ofNat]
  decide

theorem fmt7_negbig :
    fmt7 ((-1152921504606846976 : ℚ)) = "-1152921504606846976.0000000" := by
  rw [fmt7, scaled7_negbig]
  decide

theorem valOf_negbig :
    valOf ("-1152921504606846976.0000000") = -1152921504606846976 := by
  rw [← fmt7_negbig, valOf_fmt7, round7, scaled7_negbig]
  norm_num

theorem main_envBigChange_fst : (main envBigChange).1 = Outcome.ok outBigChange := by
  have h0 : (main envBigChange).1 =
      Outcome.ok { outOk with
        minerChangeAddress := "chaddr"
        minerChangeAmount := fmt7 (roundF64 ((1152921504606846976 : ℚ)))
        transactionFees := fmt7 (f64Sub (f64Sub 50 20)
          (roundF64 (valOf (fmt7 (roundF64 ((1152921504606846976 : ℚ))))))) } := rfl
  rw [h0, roundF64_big, fmt7_big, valOf_big, roundF64_big, f64Sub_50_20, f64Sub,
    roundF64_30_sub_big, fmt7_negbig]
  rfl

theorem main_envLoadFail_snd : (main envLoadFail).2 = trLoadFail := rfl

theorem main_envLoadFail_isOk : (main envLoadFail).1.isOk = true := rfl

theorem main_envNoVout_fst :
    (main envNoVout).1 = Outcome.panic ("called Option::unwrap on a None value") := rfl

theorem main_envEmptyAddrs_fst :
    (main envEmptyAddrs).1 = Outcome.panic ("index out of bounds") := rfl

theorem main_envNoHash_fst :
    (main envNoHash).1 = Outcome.panic ("index out of bounds") := rfl

/-! ## Remaining helper lemmas -/

theorem exOk_inv {α : Type} {x : Except Err α} (h : exOk x = true) : ∃ a, x = Except.ok a := by
  cases x with
  | ok a => exact ⟨a, rfl⟩
  | error e => simp [exOk] at h

theorem colw_isOk_inv (w : WalletEnv) (name : String)
    (h : (create_or_load_wallet w name).1.isOk = true) :
    ∃ tw, create_or_load_wallet w name = (Outcome.ok (), tw) := by
  obtain ⟨l1, c, l2⟩ := w
  cases l1 <;> cases c <;> cases l2 <;>
    first
      | exact ⟨_, rfl⟩
      | (exfalso; revert h; simp [create_or_load_wallet, Outcome.isOk])

theorem amount_from_btc_20 : amount_from_btc 20 = Except.ok 20 := by
  rw [amount_from_btc, if_pos (by norm_num)]

theorem valOf_50 : valOf ("50") = 50 := by
  have h : parseDec ("50") = some (((50 : ℕ) : ℚ)) := rfl
  rw [valOf, h]
  norm_num

theorem valOf_20 : valOf ("20") = 20 := by
  have h : parseDec ("20") = some (((20 : ℕ) : ℚ)) := rfl
  rw [valOf, h]
  norm_num

theorem splitNl_fileContent (o : Output)
    (h : ∀ f ∈ o.toLines, ('\n' : Char) ∉ f.toList) :
    splitNl (fileContent o) = o.toLines.map String.toList ++ [[]] := by
  obtain ⟨f1, f2, f3, f4, f5, f6, f7, f8, f9, f10⟩ := o
  simp only [Output.toLines] at h ⊢
  have h1 := h f1 (by simp)
  have h2 := h f2 (by simp)
  have h3 := h f3 (by simp)
  have h4 := h f4 (by simp)
  have h5 := h f5 (by simp)
  have h6 := h f6 (by simp)
  have h7 := h f7 (by simp)
  have h8 := h f8 (by simp)
  have h9 := h f9 (by simp)
  have h10 := h f10 (by simp)
  simp only [fileContent, Output.toLines, List.map_cons, List.map_nil, List.flatten_cons,
    List.flatten_nil, List.append_assoc, List.singleton_append, List.append_nil]
  rw [splitNl_append _ _ h1, splitNl_append _ _ h2, splitNl_append _ _ h3,
    splitNl_append _ _ h4, splitNl_append _ _ h5, splitNl_append _ _ h6,
    splitNl_append _ _ h7, splitNl_append _ _ h8, splitNl_append _ _ h9,
    splitNl_append _ _ h10]
  rfl

/-! ## The claims -/

/-- C2 counterexample: a run that completes without error in which the fee
line does not equal input minus output minus change at the precision written.
The node reports a change output of 2⁶⁰ coins; the change line reads back as
2⁶⁰ exactly, but the `f64` subtraction `30.0 - 2⁶⁰` (lines 228–229) rounds to
`-2⁶⁰`, so the fee line is off from `50 - 20 - 2⁶⁰` by the full 30. -/
theorem c2_counterexample :
    (main envBigChange).1 = Outcome.ok outBigChange ∧
      valOf outBigChange.transactionFees ≠
        valOf outBigChange.minerInputAmount - valOf outBigChange.traderOutputAmount -
          valOf outBigChange.minerChangeAmount := by
  refine ⟨main_envBigChange_fst, ?_⟩
  have h1 : valOf outBigChange.transactionFees = -1152921504606846976 := valOf_negbig
  have h2 : valOf outBigChange.minerChangeAmount = 1152921504606846976 := valOf_big
  have h3 : valOf outBigChange.minerInputAmount = 50 := valOf_50
  have h4 : valOf outBigChange.traderOutputAmount = 20 := valOf_20
  rw [h1, h2, h3, h4]
  norm_num

/-- C2 amended: for every run of `main` that completes without error whose
change line reads back with magnitude at most one million coins (any amount a
regtest transaction can carry is far below this), the transaction-fee value
written equals the input amount minus the output amount minus the change
amount, each read back at the precision written; at astronomical change
magnitudes the binary64 rounding of the fee subtraction can break the
equation. -/
theorem c2_fee_equation (env : NodeEnv) (out : Output) (t : List Ev)
    (h : main env = (Outcome.ok out, t))
    (hsmall : |valOf out.minerChangeAmount| ≤ 1000000) :
    valOf out.transactionFees =
      valOf out.minerInputAmount - valOf out.traderOutputAmount - valOf out.minerChangeAmount := by
  obtain ⟨minerAddr, traderAddr, txid, bh0, hashes, txj, blockj, vout, chg, twM, twT,
    _, _, _, _, _, _, _, _, hfind, _, _, _, hout⟩ := main_ok_shape env out t h
  subst hout
  simp only at hsmall ⊢
  rw [valOf_50, valOf_20]
  rcases find_change_shape vout (addr_str traderAddr.render) chg hfind with hemp | ⟨_, q, hq⟩
  · rw [hemp] at hsmall ⊢
    simp only at hsmall ⊢
    exact fee_eq_of_small (valOf ("")) 0 (by rw [valOf_empty]; norm_num) hsmall
  · rw [hq] at hsmall ⊢
    obtain ⟨z, hz⟩ := round7_int_form q
    exact fee_eq_of_small (valOf (fmt7 q)) z (by rw [valOf_fmt7, hz]) hsmall

/-- C2 witness: the fee equation holds on the concrete run with a change
output of 29 BTC. -/
theorem c2_fee_equation_witness :
    |valOf outChange.minerChangeAmount| ≤ 1000000 ∧
      valOf outChange.transactionFees =
        valOf outChange.minerInputAmount - valOf outChange.traderOutputAmount -
          valOf outChange.minerChangeAmount := by
  have hb : |valOf outChange.minerChangeAmount| ≤ 1000000 := by
    have h : valOf outChange.minerChangeAmount = 29 := valOf_29str
    rw [h]
    norm_num
  exact ⟨hb, c2_fee_equation envChange outChange trOk main_envChange hb⟩

/-- C3: on every run of `main` that completes without error the miner change
address line differs from the trader output address line.  A recorded change
address differs from the trader's by the scan's guard (line 216); when none
is recorded the change line is the empty string while the trader line is the
rendering of a deserialized `bitcoin::Address`, which is never empty. -/
theorem c3_change_address (env : NodeEnv) (out : Output) (t : List Ev)
    (h : main env = (Outcome.ok out, t)) :
    out.minerChangeAddress ≠ out.traderOutputAddress := by
  obtain ⟨minerAddr, traderAddr, txid, bh0, hashes, txj, blockj, vout, chg, twM, twT,
    _, _, _, _, _, _, _, _, hfind, _, _, _, hout⟩ := main_ok_shape env out t h
  subst hout
  simp only
  have htr : addr_str traderAddr.render = traderAddr.render :=
    addr_str_id (validAddressB_ne_empty traderAddr.valid)
      (validAddressB_no_quote traderAddr.valid)
  rcases find_change_shape vout (addr_str traderAddr.render) chg hfind with hemp | ⟨hne, _, _⟩
  · rw [hemp, htr]
    simp only
    intro hcontra
    exact validAddressB_ne_empty traderAddr.valid hcontra.symm
  · exact hne

/-- C3 witness: the statement applied to the concrete run with a change
output, whose change line `"chaddr"` differs from the trader line `"taddr"`. -/
theorem c3_change_address_witness :
    outChange.minerChangeAddress ≠ outChange.traderOutputAddress :=
  c3_change_address envChange outChange trOk main_envChange

/-- C7: every run of `main` that completes without error performs the nine
steps exactly once, in order 1–9. -/
theorem c7_nine_steps (env : NodeEnv) (out : Output) (t : List Ev)
    (h : main env = (Outcome.ok out, t)) :
    stepsOf t = [1, 2, 3, 4, 5, 6, 7, 8, 9] := by
  obtain ⟨_, _, _, _, _, _, _, _, _, _, _, _, _, _, _, _, _, _, _, _, _, _, hsteps, _⟩ :=
    main_ok_shape env out t h
  exact hsteps

/-- C7 witness: the step banners of the concrete successful run. -/
theorem c7_nine_steps_witness : stepsOf trOk = [1, 2, 3, 4, 5, 6, 7, 8, 9] :=
  c7_nine_steps envOk outOk trOk main_envOk

/-- C8: on every run of `main` that completes without error, the miner input
amount and trader output amount lines are the constant strings `"50"` and
`"20"`, whatever transaction the node reports. -/
theorem c8_constant_amounts (env : NodeEnv) (out : Output) (t : List Ev)
    (h : main env = (Outcome.ok out, t)) :
    out.minerInputAmount = "50" ∧ out.traderOutputAmount = "20" := by
  obtain ⟨minerAddr, traderAddr, txid, bh0, hashes, txj, blockj, vout, chg, twM, twT,
    _, _, _, _, _, _, _, _, _, _, _, _, hout⟩ := main_ok_shape env out t h
  subst hout
  exact ⟨rfl, rfl⟩

/-- C8 witness: the constant amount lines on a concrete run whose transaction
pays 20 to the trader and 29 in change. -/
theorem c8_constant_amounts_witness :
    outChange.minerInputAmount = "50" ∧ outChange.traderOutputAmount = "20" :=
  c8_constant_amounts envChange outChange trOk main_envChange

/-- C1 counterexample: a run that completes without error whose output file
has eleven newline-terminated lines, because the node's `sendtoaddress`
response carried a `txid` containing a newline — `SendToAddressResult.txid`
(line 174) is a plain unvalidated `String`, and the txid is written verbatim
as the first field. -/
theorem c1_counterexample :
    (main envNlTxid).1 = Outcome.ok outNlTxid ∧
      (fileContent outNlTxid).count '\n' = 11 ∧
      outNlTxid.txid = "tx\nid" :=
  ⟨main_envNlTxid_fst, by decide, rfl⟩

/-- C1 amended: on every run of `main` that completes without error, provided
none of the node-returned strings written to the file contains a newline
character, the file has exactly ten newline-terminated lines and they are, in
order: transaction ID, miner input address, miner input amount, trader output
address, trader output amount, miner change address, miner change amount,
transaction fee, confirming block height, confirming block hash. -/
theorem c1_ten_lines (env : NodeEnv) (out : Output) (t : List Ev)
    (h : main env = (Outcome.ok out, t))
    (hnl : ∀ f ∈ out.toLines, ('\n' : Char) ∉ f.toList) :
    (fileContent out).count '\n' = 10 ∧
      ∃ (txid : String) (minerAddr traderAddr : Address),
        env.sendResult = Except.ok txid ∧
        env.miningAddress = Except.ok minerAddr ∧
        env.traderAddress = Except.ok traderAddr ∧
        splitNl (fileContent out) =
          [txid.toList, (addr_str minerAddr.render).toList, "50".toList,
           (addr_str traderAddr.render).toList, "20".toList,
           out.minerChangeAddress.toList, out.minerChangeAmount.toList,
           out.transactionFees.toList, out.blockHeight.toList,
           out.blockHash.toList] ++ [[]] := by
  have hsplit := splitNl_fileContent out hnl
  have hcount : (fileContent out).count '\n' = 10 := by
    have hlen := splitNl_length (fileContent out)
    rw [hsplit] at hlen
    simp [Output.toLines] at hlen
    omega
  obtain ⟨minerAddr, traderAddr, txid, bh0, hashes, txj, blockj, vout, chg, twM, twT,
    hmine0, htr0, hsend0, _, _, _, _, _, _, _, _, _, hout⟩ := main_ok_shape env out t h
  refine ⟨hcount, txid, minerAddr, traderAddr, hsend0, hmine0, htr0, ?_⟩
  rw [hsplit, hout]
  rfl

/-- C1 witness: the amended statement on the concrete successful run. -/
theorem c1_ten_lines_witness :
    (∀ f ∈ outOk.toLines, ('\n' : Char) ∉ f.toList) ∧
      (fileContent outOk).count '\n' = 10 :=
  ⟨by decide, (c1_ten_lines envOk outOk trOk main_envOk (by decide)).1⟩

/-- C5 counterexample: a run in which an RPC call (the first Miner
`loadwallet`) returns an error, yet a further RPC call follows it and the
whole run completes without error. -/
theorem c5_counterexample :
    (main envLoadFail).2.take 4 =
      [Ev.call Call.getblockchaininfo true, Ev.step 1,
       Ev.call (Call.loadwallet ("Miner")) false,
       Ev.call (Call.createwallet ("Miner")) true] ∧
      evFailed (Ev.call (Call.loadwallet ("Miner")) false) = true ∧
      (main envLoadFail).1.isOk = true := by
  refine ⟨?_, rfl, main_envLoadFail_isOk⟩
  rw [main_envLoadFail_snd]
  rfl

/-- C5 amended: a failed RPC call aborts the run with no further calls and no
retries, except inside `create_or_load_wallet`: there a failed `loadwallet`
falls back to `createwallet`, a failed `createwallet` is followed by one
`loadwallet` retry, and if that also fails `create_or_load_wallet` propagates
the original creation error. -/
theorem c5_error_handling (env : NodeEnv) :
    TraceOkP (main env) ∧
      ∀ (w : WalletEnv) (name : String) (e : Err),
        exOk w.load1 = false → w.create = Except.error e → exOk w.load2 = false →
        (create_or_load_wallet w name).1 = Outcome.err e := by
  refine ⟨main_traceOk env, ?_⟩
  intro w name e h1 h2 h3
  obtain ⟨l1, c, l2⟩ := w
  cases l1 with
  | ok a => simp [exOk] at h1
  | error e1 =>
    cases h2
    cases l2 with
    | ok a => simp [exOk] at h3
    | error e2 => rfl

/-- C5 witness: the amended statement instantiated on the run whose Miner
`loadwallet` fails: the failed call is a wallet call. -/
theorem c5_error_handling_witness :
    evIsWalletCall (Ev.call (Call.loadwallet ("Miner")) false) = true ∨
      ((main envLoadFail).2.getLast? = some (Ev.call (Call.loadwallet ("Miner")) false) ∧
        (main envLoadFail).1.isErr = true) :=
  (c5_error_handling envLoadFail).1 (Ev.call (Call.loadwallet ("Miner")) false)
    (by rw [main_envLoadFail_snd]; decide) rfl

/-- C6 counterexample: the `send` wrapper is not a pass-through returning the
node's result unchanged: on a successful node response with
`complete: false` it panics on its assertion instead. -/
theorem c6_counterexample :
    send rpcStub ("a") = Outcome.panic ("assertion failed: send_result.complete") ∧
      exOk (rpcStub ("send") (sendArgs ("a"))) = true :=
  ⟨rfl, rfl⟩

/-- C6 amended: the four query/mining wrappers forward their marshaled
arguments to the named remote procedure and return its (serde-decoded) result
unchanged; `send` additionally asserts the node's `complete` flag — panicking
when it is false — and returns only the `txid` field. -/
theorem c6_wrappers :
    (∀ (rpc : RpcClient) (txid : String),
      get_transaction_details rpc txid = rpc ("getrawtransaction") [Json.str txid, Json.bool true]) ∧
    (∀ (rpc : RpcClient) (hash : String),
      get_block_details rpc hash = rpc ("getblock") [Json.str hash]) ∧
    (∀ (rpc : RpcClient) (txid : String),
      get_mempool_entry rpc txid = rpc ("getmempoolentry") [Json.str txid]) ∧
    (∀ (rpc : RpcClient) (address : String) (n : ℕ),
      mine_blocks_to_address rpc address n =
        (rpc ("generatetoaddress") [Json.num (n : ℚ), Json.str address]).bind decodeStringList) ∧
    (∀ (rpc : RpcClient) (addr : String) (b : Bool) (txid : String),
      rpc ("send") (sendArgs addr) =
          Except.ok (Json.obj [("complete", Json.bool b), ("txid", Json.str txid)]) →
        send rpc addr =
          if b then Outcome.ok txid
          else Outcome.panic ("assertion failed: send_result.complete")) := by
  refine ⟨fun _ _ => rfl, fun _ _ => rfl, fun _ _ => rfl, fun _ _ _ => rfl, ?_⟩
  intro rpc addr b txid hresp
  rw [send, hresp]
  rfl

/-- C6 witness: the `send` characterization applied to a client whose
response has `complete: true`. -/
theorem c6_wrappers_witness :
    send rpcStubOk ("a") =
      if true then Outcome.ok ("abc")
      else Outcome.panic ("assertion failed: send_result.complete") :=
  c6_wrappers.2.2.2.2 rpcStubOk ("a") true ("abc") rfl

/-- An auxiliary simp lemma: `pure` in the script monad. -/
theorem M_pure_eq {α : Type} (a : α) : (pure a : M α) = (Outcome.ok a, ([] : List Ev)) := rfl

/-- C4: if the node loads a wallet successfully (the wallet already exists),
`create_or_load_wallet` returns `Ok` after that single `loadwallet` call; and
a run whose `loadwallet` calls both succeed gets through Step 1: its trace
starts with the two successful loads and reaches the Step 2 banner. -/
theorem c4_wallet_reuse :
    (∀ (w : WalletEnv) (name : String), w.load1 = Except.ok () →
      create_or_load_wallet w name =
        (Outcome.ok (), [Ev.call (Call.loadwallet name) true])) ∧
    (∀ env : NodeEnv, env.clientNew = Except.ok () →
      ∀ j, env.blockchainInfo = Except.ok j →
      env.minerWallet.load1 = Except.ok () →
      env.traderWallet.load1 = Except.ok () →
      (main env).2.take 5 =
        [Ev.call Call.getblockchaininfo true, Ev.step 1,
         Ev.call (Call.loadwallet ("Miner")) true,
         Ev.call (Call.loadwallet ("Trader")) true, Ev.step 2]) := by
  constructor
  · intro w name hl
    simp only [create_or_load_wallet, hl]
  · intro env hc j hj hm ht
    rw [main]
    simp only [M.bind_eq, hc, hj, liftE_ok, rpcCall_ok, M.bind_ok, stepM,
      create_or_load_wallet, hm, ht, List.nil_append, List.cons_append,
      List.singleton_append, List.append_assoc]
    rfl

/-- C4 witness: an existing wallet loads, and the concrete all-success run
passes Step 1. -/
theorem c4_wallet_reuse_witness :
    create_or_load_wallet ⟨Except.ok (), Except.ok (), Except.ok ()⟩ ("Miner") =
        (Outcome.ok (), [Ev.call (Call.loadwallet ("Miner")) true]) ∧
      (main envOk).2.take 5 =
        [Ev.call Call.getblockchaininfo true, Ev.step 1,
         Ev.call (Call.loadwallet ("Miner")) true,
         Ev.call (Call.loadwallet ("Trader")) true, Ev.step 2] :=
  ⟨c4_wallet_reuse.1 _ _ rfl, c4_wallet_reuse.2 envOk rfl Json.null rfl rfl rfl⟩

/-- C9 counterexample: a transaction whose single output has an empty
`addresses` array satisfies the hypothesis (no output whose first address is
a string different from the trader's) yet `main` panics instead of
completing. -/
theorem c9_counterexample :
    (main envEmptyAddrs).1 = Outcome.panic ("index out of bounds") ∧
      ∀ o ∈ voutEmptyAddrs, ∀ (a0 : Json) (r : List Json) (s : String),
        ((o.get ("scriptPubKey")).get ("addresses")).as_array = some (a0 :: r) →
        a0.as_str = some s → s = addr_str ("taddr") := by
  refine ⟨main_envEmptyAddrs_fst, ?_⟩
  intro o ho a0 r s h1 h2
  simp only [voutEmptyAddrs, List.mem_singleton] at ho
  subst ho
  have hx : (((Json.obj [("scriptPubKey", Json.obj [("addresses", Json.arr [])])]).get
      ("scriptPubKey")).get ("addresses")).as_array = some ([] : List Json) := rfl
  rw [hx] at h1
  exact absurd (Option.some.inj h1) (by simp)

/-- C9 amended: if every node response succeeds, step 7 mines at least one
block, the transaction has a `vout` array, and no output of it yields a
change candidate — its `addresses` array is absent, or non-empty with a first
element that is not a string or is the trader's address — then `main` still
completes: the change address and amount lines are empty strings and the fee
line is `"30.0000000"` (the change defaulting to 0.0). -/
theorem c9_no_change (env : NodeEnv) (txj : Json) (vout : List Json)
    (traderAddr : Address) (hashes : List String)
    (hok : EnvResponsesOk env)
    (htr : env.traderAddress = Except.ok traderAddr)
    (hm1 : env.mine1 = Except.ok hashes)
    (hne : hashes ≠ [])
    (htx : env.txDetails = Except.ok txj)
    (hva : (txj.get ("vout")).as_array = some vout)
    (hno : ∀ o ∈ vout, noChangeOutputB (addr_str traderAddr.render) o = true) :
    ∃ (out : Output) (t : List Ev), main env = (Outcome.ok out, t) ∧
      out.minerChangeAddress = "" ∧ out.minerChangeAmount = "" ∧
      out.transactionFees = "30.0000000" := by
  obtain ⟨h1, h2, h3, h4, h5, h6, h7, h8, h9, h10, h11, h12, h13, h14, h15, h16⟩ := hok
  obtain ⟨u1, hc1⟩ := exOk_inv h1
  obtain ⟨twM, hcM⟩ := colw_isOk_inv _ _ h3
  obtain ⟨twT, hcT⟩ := colw_isOk_inv _ _ h4
  obtain ⟨j2, hc2⟩ := exOk_inv h2
  obtain ⟨u5, hc5⟩ := exOk_inv h5
  obtain ⟨minerAddr, hc6⟩ := exOk_inv h6
  obtain ⟨hs101, hc7⟩ := exOk_inv h7
  obtain ⟨bal, hc8⟩ := exOk_inv h8
  obtain ⟨u9, hc9⟩ := exOk_inv h9
  obtain ⟨txid, hc11⟩ := exOk_inv h11
  obtain ⟨mp, hc12⟩ := exOk_inv h12
  obtain ⟨blockj, hc15⟩ := exOk_inv h15
  obtain ⟨u16, hc16⟩ := exOk_inv h16
  obtain ⟨bh, tl, rfl⟩ := List.exists_cons_of_ne_nil hne
  obtain ⟨⟩ := u1
  obtain ⟨⟩ := u5
  obtain ⟨⟩ := u9
  obtain ⟨⟩ := u16
  have hfc := find_change_none vout (addr_str traderAddr.render) hno
  rw [main]
  simp only [M.bind_eq, hc1, hc2, hcM, hcT, hc5, hc6, hc7, hc8, hc9, htr, hc11, hc12,
    hm1, htx, hc15, hc16, amount_from_btc_20, liftE_ok, rpcCall_ok, M.bind_ok, stepM,
    ofOutcome, headPanic, unwrapArr, hva, hfc, M_pure_eq]
  exact ⟨_, _, rfl, rfl, rfl, fee_empty_fmt⟩

/-- C9 witness: the amended statement on the concrete all-success empty-vout
environment. -/
theorem c9_no_change_witness :
    EnvResponsesOk envOk ∧
      ∃ (out : Output) (t : List Ev), main envOk = (Outcome.ok out, t) ∧
        out.minerChangeAddress = "" ∧ out.minerChangeAmount = "" ∧
        out.transactionFees = "30.0000000" :=
  ⟨by unfold EnvResponsesOk; decide,
    c9_no_change envOk (Json.obj [("vout", Json.arr [])]) [] ⟨("taddr"), by decide⟩
      ["blockhash0"] (by unfold EnvResponsesOk; decide) rfl rfl (by simp) rfl rfl (by simp)⟩

/-- C10: under the precondition — step 7 returns at least one block hash, the
`getrawtransaction` response has a `vout` array all of whose outputs have
non-empty `addresses` arrays when present — the three partial operations of
`main` never panic; dropping each part of the precondition produces a
process-aborting panic, not an error return. -/
theorem c10_panic_sites :
    (∀ env : NodeEnv, PrePanicB env = true → NoPanic (main env)) ∧
      (main envNoVout).1 = Outcome.panic ("called Option::unwrap on a None value") ∧
      (main envEmptyAddrs).1 = Outcome.panic ("index out of bounds") ∧
      (main envNoHash).1 = Outcome.panic ("index out of bounds") :=
  ⟨main_noPanic, main_envNoVout_fst, main_envEmptyAddrs_fst, main_envNoHash_fst⟩

/-- C10 witness: the precondition holds of the concrete all-success
environment, and its run does not panic. -/
theorem c10_panic_sites_witness :
    PrePanicB envOk = true ∧ NoPanic (main envOk) :=
  ⟨by decide, c10_panic_sites.1 envOk (by decide)⟩

end Capstone
